import Mathlib

/-!
Verification of the invoice subsystem of bikinota-core (Go).

The development shallowly embeds the Go source:

* Go `int` is embedded as `ℤ` (overflow is irrelevant at the ranges the
  claims quantify over), Go `uint` primary keys as `ℕ`, Go `float64`
  values as the exact rational they denote.
* The two `float64` operations the financial path performs
  (`int(float64(subtotal) * taxRate / 100.0)` in the handler and
  `int(rupiah * 100)` in `rupiahToCents`) are embedded with an explicit
  model of IEEE-754 binary64 round-to-nearest, ties-to-even (`roundF`),
  with unbounded exponent range: every quantity appearing in this
  development is far inside the normal range, so overflow and subnormal
  behaviour never matter.
* The GORM storage layer is embedded as explicit list-of-rows states; a
  transaction body is a function returning `Option` (rollback on `none`),
  matching the documented rollback-on-error contract of
  `gorm.DB.Transaction` used by `invoiceRepository.Update`.

All definitions are written to reduce in the kernel, so concrete claims
can be settled by `decide`; kernel-opaque library functions (`Nat.log2`,
`Int.floor` through the `FloorRing` instance, `zpow`) are replaced by
structurally recursive equivalents with bridge lemmas.
-/

namespace Bikinota

/-! ### Kernel-computable helpers -/

/-- Floor of a rational as an integer. Euclidean division by the (positive)
denominator is exactly the floor. -/
def qfloor (x : ℚ) : ℤ := x.num / (x.den : ℤ)

theorem qfloor_eq (x : ℚ) : qfloor x = ⌊x⌋ := (Rat.floor_def).symm

/-- Multiplication on `ℚ`, written so that the kernel can evaluate it
(the library multiplication is sealed behind an irreducibility attribute). -/
def qmul (a b : ℚ) : ℚ := Rat.divInt (a.num * b.num) ((a.den : ℤ) * b.den)

theorem qmul_eq (a b : ℚ) : qmul a b = a * b := by
  rw [qmul, Rat.divInt_eq_div]
  conv_rhs => rw [← Rat.num_div_den a, ← Rat.num_div_den b]
  rw [div_mul_div_comm]
  push_cast
  ring_nf

/-- Subtraction on `ℚ`, written so that the kernel can evaluate it. -/
def qsub (a b : ℚ) : ℚ :=
  Rat.divInt (a.num * b.den - b.num * a.den) ((a.den : ℤ) * b.den)

theorem qsub_eq (a b : ℚ) : qsub a b = a - b := by
  have ha : ((a.den : ℚ)) ≠ 0 := by exact_mod_cast (Rat.den_pos a).ne'
  have hb : ((b.den : ℚ)) ≠ 0 := by exact_mod_cast (Rat.den_pos b).ne'
  rw [qsub, Rat.divInt_eq_div]
  conv_rhs => rw [← Rat.num_div_den a, ← Rat.num_div_den b]
  rw [div_sub_div _ _ ha hb]
  push_cast
  ring_nf

/-- Fueled base-2 logarithm on naturals (structural recursion so that the
kernel can evaluate it). -/
def log2Aux : ℕ → ℕ → ℕ
  | 0, _ => 0
  | fuel + 1, n => if n ≤ 1 then 0 else log2Aux fuel (n / 2) + 1

/-- Base-2 logarithm, rounding down: the largest `k` with `2 ^ k ≤ n`. -/
def natLog2 (n : ℕ) : ℕ := log2Aux n n

theorem log2Aux_spec (fuel : ℕ) : ∀ n : ℕ, n ≤ fuel → n ≠ 0 →
    2 ^ log2Aux fuel n ≤ n ∧ n < 2 ^ (log2Aux fuel n + 1) := by
  induction fuel with
  | zero => intro n hle hne; omega
  | succ fuel ih =>
    intro n hle hne
    by_cases h1 : n ≤ 1
    · have : n = 1 := by omega
      subst this
      simp [log2Aux]
    · have h2 : 2 ≤ n := by omega
      have hhalf_le : n / 2 ≤ fuel := by omega
      have hhalf_ne : n / 2 ≠ 0 := by omega
      obtain ⟨ihl, ihr⟩ := ih (n / 2) hhalf_le hhalf_ne
      have hunf : log2Aux (fuel + 1) n = log2Aux fuel (n / 2) + 1 := by
        simp [log2Aux, h1]
      rw [hunf]
      constructor
      · calc 2 ^ (log2Aux fuel (n / 2) + 1) = 2 * 2 ^ log2Aux fuel (n / 2) := by ring
        _ ≤ 2 * (n / 2) := by omega
        _ ≤ n := by omega
      · calc n < 2 * (n / 2) + 2 := by omega
        _ ≤ 2 * 2 ^ (log2Aux fuel (n / 2) + 1) := by omega
        _ = 2 ^ (log2Aux fuel (n / 2) + 1 + 1) := by ring

theorem natLog2_spec (n : ℕ) (hn : n ≠ 0) :
    2 ^ natLog2 n ≤ n ∧ n < 2 ^ (natLog2 n + 1) :=
  log2Aux_spec n n le_rfl hn

/-- Integer power of two as a rational, by structural recursion on the sign
of the exponent. -/
def qpow2 (e : ℤ) : ℚ :=
  match e with
  | .ofNat k => ((2 ^ k : ℕ) : ℚ)
  | .negSucc k => Rat.divInt 1 (2 ^ (k + 1) : ℕ)

theorem qpow2_eq (e : ℤ) : qpow2 e = (2 : ℚ) ^ e := by
  have hcast : ∀ m : ℕ, ((2 ^ m : ℕ) : ℚ) = (2 : ℚ) ^ (m : ℤ) := by
    intro m
    rw [zpow_natCast]
    push_cast
    ring
  match e with
  | .ofNat k =>
    show ((2 ^ k : ℕ) : ℚ) = _
    rw [Int.ofNat_eq_natCast]
    exact hcast k
  | .negSucc k =>
    show Rat.divInt 1 (2 ^ (k + 1) : ℕ) = _
    rw [Int.negSucc_eq, zpow_neg, Rat.divInt_eq_div]
    push_cast
    rw [one_div]
    congr 1
    rw [← zpow_natCast (2 : ℚ) (k + 1)]
    congr 1

theorem qpow2_pos (e : ℤ) : 0 < qpow2 e := by
  rw [qpow2_eq]
  positivity

/-! ### IEEE-754 binary64 model -/

/-- Floor of the base-2 logarithm of a nonzero rational: the unique `e`
with `2 ^ e ≤ |q| < 2 ^ (e + 1)`. Computed from the bit lengths of the
numerator and denominator. -/
def expOf (q : ℚ) : ℤ :=
  if q.den * 2 ^ natLog2 q.num.natAbs ≤ q.num.natAbs * 2 ^ natLog2 q.den
  then (natLog2 q.num.natAbs : ℤ) - natLog2 q.den
  else (natLog2 q.num.natAbs : ℤ) - natLog2 q.den - 1

theorem expOf_spec {q : ℚ} (hq : 0 < q) :
    (2 : ℚ) ^ expOf q ≤ q ∧ q < (2 : ℚ) ^ (expOf q + 1) := by
  have hnum : 0 < q.num := Rat.num_pos.mpr hq
  have hnn : q.num.natAbs ≠ 0 := Int.natAbs_ne_zero.mpr hnum.ne'
  have hdn : q.den ≠ 0 := (Rat.den_pos q).ne'
  obtain ⟨ha1, ha2⟩ := natLog2_spec q.num.natAbs hnn
  obtain ⟨hb1, hb2⟩ := natLog2_spec q.den hdn
  have hdpos : (0 : ℚ) < (q.den : ℚ) := by exact_mod_cast Rat.den_pos q
  have hnd : ((q.num.natAbs : ℕ) : ℚ) = q * q.den := by
    have h0 : ((q.num.natAbs : ℕ) : ℤ) = q.num := Int.natAbs_of_nonneg hnum.le
    have h1 : ((q.num.natAbs : ℕ) : ℚ) = (q.num : ℚ) := by
      rw [← Int.cast_natCast (R := ℚ), h0]
    have h2 : (q.num : ℚ) = q * q.den :=
      (div_eq_iff hdpos.ne').mp (Rat.num_div_den q)
    rw [h1, h2]
  have hzpow : ∀ s t : ℕ, (2 : ℚ) ^ ((s : ℤ) - (t : ℤ)) = (2 ^ s : ℕ) / (2 ^ t : ℕ) := by
    intro s t
    rw [zpow_sub₀ (two_ne_zero), zpow_natCast, zpow_natCast]
    push_cast
    ring
  have h2pos : ∀ t : ℕ, (0 : ℚ) < ((2 ^ t : ℕ) : ℚ) := by
    intro t
    positivity
  have key : ∀ t : ℕ, q * ((2 ^ t : ℕ) : ℚ) * q.den = ((q.num.natAbs * 2 ^ t : ℕ) : ℚ) := by
    intro t
    calc q * ((2 ^ t : ℕ) : ℚ) * q.den = q * q.den * ((2 ^ t : ℕ) : ℚ) := by ring
    _ = ((q.num.natAbs : ℕ) : ℚ) * ((2 ^ t : ℕ) : ℚ) := by rw [hnd]
    _ = ((q.num.natAbs * 2 ^ t : ℕ) : ℚ) := by push_cast; ring
  have main_le : ∀ s t : ℕ, q.den * 2 ^ s ≤ q.num.natAbs * 2 ^ t →
      (2 : ℚ) ^ ((s : ℤ) - (t : ℤ)) ≤ q := by
    intro s t h
    rw [hzpow, div_le_iff (h2pos t)]
    apply (mul_le_mul_right hdpos).mp
    rw [key]
    calc ((2 ^ s : ℕ) : ℚ) * q.den = ((2 ^ s * q.den : ℕ) : ℚ) := by push_cast; ring
    _ = ((q.den * 2 ^ s : ℕ) : ℚ) := by rw [Nat.mul_comm]
    _ ≤ ((q.num.natAbs * 2 ^ t : ℕ) : ℚ) := Nat.cast_le.mpr h
  have main_lt : ∀ s t : ℕ, q.num.natAbs * 2 ^ t < q.den * 2 ^ s →
      q < (2 : ℚ) ^ ((s : ℤ) - (t : ℤ)) := by
    intro s t h
    rw [hzpow, lt_div_iff (h2pos t)]
    apply (mul_lt_mul_right hdpos).mp
    rw [key]
    calc ((q.num.natAbs * 2 ^ t : ℕ) : ℚ) < ((q.den * 2 ^ s : ℕ) : ℚ) := Nat.cast_lt.mpr h
    _ = ((2 ^ s : ℕ) : ℚ) * q.den := by push_cast; ring
  rw [expOf]
  split_ifs with hcond
  · refine ⟨main_le _ _ hcond, ?_⟩
    have hnat : q.num.natAbs * 2 ^ natLog2 q.den <
        q.den * 2 ^ (natLog2 q.num.natAbs + 1) := by
      calc q.num.natAbs * 2 ^ natLog2 q.den
          < 2 ^ (natLog2 q.num.natAbs + 1) * 2 ^ natLog2 q.den :=
            mul_lt_mul_of_pos_right ha2 (by positivity)
      _ ≤ 2 ^ (natLog2 q.num.natAbs + 1) * q.den :=
            mul_le_mul_of_nonneg_left hb1 (zero_le _)
      _ = q.den * 2 ^ (natLog2 q.num.natAbs + 1) := mul_comm _ _
    have := main_lt (natLog2 q.num.natAbs + 1) (natLog2 q.den) hnat
    calc q < (2 : ℚ) ^ (((natLog2 q.num.natAbs + 1 : ℕ) : ℤ) - (natLog2 q.den : ℤ)) := this
    _ = (2 : ℚ) ^ ((natLog2 q.num.natAbs : ℤ) - (natLog2 q.den : ℤ) + 1) := by
        congr 1
        push_cast
        ring
  · push_neg at hcond
    constructor
    · have hnat : q.den * 2 ^ natLog2 q.num.natAbs ≤
          q.num.natAbs * 2 ^ (natLog2 q.den + 1) := by
        calc q.den * 2 ^ natLog2 q.num.natAbs
            ≤ 2 ^ (natLog2 q.den + 1) * 2 ^ natLog2 q.num.natAbs :=
              mul_le_mul_of_nonneg_right hb2.le (zero_le _)
        _ = 2 ^ natLog2 q.num.natAbs * 2 ^ (natLog2 q.den + 1) := mul_comm _ _
        _ ≤ q.num.natAbs * 2 ^ (natLog2 q.den + 1) :=
              mul_le_mul_of_nonneg_right ha1 (zero_le _)
      have := main_le (natLog2 q.num.natAbs) (natLog2 q.den + 1) hnat
      calc (2 : ℚ) ^ ((natLog2 q.num.natAbs : ℤ) - (natLog2 q.den : ℤ) - 1)
          = (2 : ℚ) ^ ((natLog2 q.num.natAbs : ℤ) - ((natLog2 q.den + 1 : ℕ) : ℤ)) := by
            congr 1
            push_cast
            ring
      _ ≤ q := this
    · have hnat : q.num.natAbs * 2 ^ natLog2 q.den <
          q.den * 2 ^ natLog2 q.num.natAbs := hcond
      have := main_lt (natLog2 q.num.natAbs) (natLog2 q.den) hnat
      calc q < (2 : ℚ) ^ ((natLog2 q.num.natAbs : ℤ) - (natLog2 q.den : ℤ)) := this
      _ = (2 : ℚ) ^ ((natLog2 q.num.natAbs : ℤ) - (natLog2 q.den : ℤ) - 1 + 1) := by
          congr 1
          ring

/-- Round a rational to the nearest integer, ties to even. -/
def rhe (x : ℚ) : ℤ :=
  let f := qfloor x
  if qsub x f < Rat.divInt 1 2 then f
  else if Rat.divInt 1 2 < qsub x f then f + 1
  else if f % 2 = 0 then f else f + 1

theorem rhe_def (x : ℚ) :
    rhe x = if x - ⌊x⌋ < 1/2 then ⌊x⌋
      else if 1/2 < x - ⌊x⌋ then ⌊x⌋ + 1
      else if ⌊x⌋ % 2 = 0 then ⌊x⌋ else ⌊x⌋ + 1 := by
  rw [rhe, qfloor_eq, qsub_eq]
  norm_num [Rat.divInt_eq_div]

/-- Round a rational to the nearest IEEE-754 binary64 value (round to
nearest, ties to even), with unbounded exponent range: neither overflow
nor subnormals are modelled, since all values in this development are
far inside the normal range. Division by the scale `2 ^ (expOf q - 52)`
is written as multiplication by `2 ^ (52 - expOf q)`, which is the same
rational. -/
def roundF (q : ℚ) : ℚ :=
  if q = 0 then 0
  else qmul (rhe (qmul q (qpow2 (52 - expOf q))) : ℚ) (qpow2 (expOf q - 52))

theorem roundF_def (q : ℚ) (hq : q ≠ 0) :
    roundF q =
      (rhe (q / (2 : ℚ) ^ (expOf q - 52)) : ℚ) * (2 : ℚ) ^ (expOf q - 52) := by
  rw [roundF, if_neg hq, qmul_eq, qmul_eq, qpow2_eq, qpow2_eq]
  rw [div_eq_mul_inv, ← zpow_neg, neg_sub]

/-- Go conversion `int(f)` of a `float64`: truncation toward zero. -/
def trunc (q : ℚ) : ℤ := if 0 ≤ q then qfloor q else -qfloor (-q)

theorem trunc_of_nonneg {q : ℚ} (h : 0 ≤ q) : trunc q = ⌊q⌋ := by
  rw [trunc, if_pos h, qfloor_eq]

theorem floor_le_rhe (x : ℚ) : ⌊x⌋ ≤ rhe x := by
  rw [rhe_def]
  split_ifs <;> omega

theorem rhe_le_floor_add_one (x : ℚ) : rhe x ≤ ⌊x⌋ + 1 := by
  rw [rhe_def]
  split_ifs <;> omega

theorem rhe_mono {x y : ℚ} (h : x ≤ y) : rhe x ≤ rhe y := by
  rcases lt_or_le ⌊x⌋ ⌊y⌋ with hf | hf
  · calc rhe x ≤ ⌊x⌋ + 1 := rhe_le_floor_add_one x
    _ ≤ ⌊y⌋ := by omega
    _ ≤ rhe y := floor_le_rhe y
  · have hfe : ⌊x⌋ = ⌊y⌋ := le_antisymm (Int.floor_le_floor h) hf
    rw [rhe_def, rhe_def, ← hfe]
    split_ifs <;> first | omega | linarith

theorem rhe_nonneg {x : ℚ} (h : 0 ≤ x) : 0 ≤ rhe x := by
  have h1 := floor_le_rhe x
  have h2 : (0 : ℤ) ≤ ⌊x⌋ := Int.le_floor.mpr (by exact_mod_cast h)
  omega

theorem roundF_zero : roundF 0 = 0 := by simp [roundF]

theorem roundF_nonneg {q : ℚ} (h : 0 ≤ q) : 0 ≤ roundF q := by
  rcases eq_or_lt_of_le h with h0 | h0
  · rw [← h0, roundF_zero]
  · rw [roundF_def q h0.ne']
    have hx : (0 : ℚ) ≤ q / (2 : ℚ) ^ (expOf q - 52) := by positivity
    have h2 : (0 : ℚ) ≤ ((rhe (q / (2 : ℚ) ^ (expOf q - 52)) : ℤ) : ℚ) := by
      exact_mod_cast rhe_nonneg hx
    exact mul_nonneg h2 (by positivity)

theorem cast_two_pow_52 : (((2 ^ 52 : ℤ)) : ℚ) = (2 : ℚ) ^ (52 : ℤ) := by
  rw [show ((52 : ℤ)) = ((52 : ℕ) : ℤ) from rfl, zpow_natCast]
  push_cast
  ring

theorem cast_two_pow_53 : (((2 ^ 53 : ℤ)) : ℚ) = (2 : ℚ) ^ (53 : ℤ) := by
  rw [show ((53 : ℤ)) = ((53 : ℕ) : ℤ) from rfl, zpow_natCast]
  push_cast
  ring

theorem pow_expOf_le_roundF {q : ℚ} (hq : 0 < q) : (2 : ℚ) ^ expOf q ≤ roundF q := by
  obtain ⟨h1, _⟩ := expOf_spec hq
  rw [roundF_def q hq.ne']
  have hpow : (0 : ℚ) < (2 : ℚ) ^ (expOf q - 52) := by positivity
  have hmerge : (2 : ℚ) ^ (52 : ℤ) * (2 : ℚ) ^ (expOf q - 52) = (2 : ℚ) ^ expOf q := by
    rw [← zpow_add₀ (two_ne_zero (α := ℚ))]
    congr 1
    ring
  have hsc : (2 : ℚ) ^ (52 : ℤ) ≤ q / (2 : ℚ) ^ (expOf q - 52) := by
    rw [le_div_iff hpow, hmerge]
    exact h1
  have hfl : (2 ^ 52 : ℤ) ≤ ⌊q / (2 : ℚ) ^ (expOf q - 52)⌋ := by
    apply Int.le_floor.mpr
    rw [cast_two_pow_52]
    exact hsc
  have hrhe : (2 : ℚ) ^ (52 : ℤ) ≤ ((rhe (q / (2 : ℚ) ^ (expOf q - 52)) : ℤ) : ℚ) := by
    rw [← cast_two_pow_52]
    exact_mod_cast le_trans hfl (floor_le_rhe _)
  calc (2 : ℚ) ^ expOf q = (2 : ℚ) ^ (52 : ℤ) * (2 : ℚ) ^ (expOf q - 52) := hmerge.symm
  _ ≤ ((rhe (q / (2 : ℚ) ^ (expOf q - 52)) : ℤ) : ℚ) * (2 : ℚ) ^ (expOf q - 52) :=
      mul_le_mul_of_nonneg_right hrhe hpow.le

theorem roundF_le_pow {q : ℚ} (hq : 0 < q) : roundF q ≤ (2 : ℚ) ^ (expOf q + 1) := by
  obtain ⟨_, h2⟩ := expOf_spec hq
  rw [roundF_def q hq.ne']
  have hpow : (0 : ℚ) < (2 : ℚ) ^ (expOf q - 52) := by positivity
  have hmerge : (2 : ℚ) ^ (53 : ℤ) * (2 : ℚ) ^ (expOf q - 52) = (2 : ℚ) ^ (expOf q + 1) := by
    rw [← zpow_add₀ (two_ne_zero (α := ℚ))]
    congr 1
    ring
  have hsc : q / (2 : ℚ) ^ (expOf q - 52) < (2 : ℚ) ^ (53 : ℤ) := by
    rw [div_lt_iff hpow, hmerge]
    exact h2
  have hfl : ⌊q / (2 : ℚ) ^ (expOf q - 52)⌋ < (2 ^ 53 : ℤ) := by
    apply Int.floor_lt.mpr
    rw [cast_two_pow_53]
    exact hsc
  have hrhe : ((rhe (q / (2 : ℚ) ^ (expOf q - 52)) : ℤ) : ℚ) ≤ (2 : ℚ) ^ (53 : ℤ) := by
    rw [← cast_two_pow_53]
    have := rhe_le_floor_add_one (q / (2 : ℚ) ^ (expOf q - 52))
    exact_mod_cast by omega
  calc ((rhe (q / (2 : ℚ) ^ (expOf q - 52)) : ℤ) : ℚ) * (2 : ℚ) ^ (expOf q - 52)
      ≤ (2 : ℚ) ^ (53 : ℤ) * (2 : ℚ) ^ (expOf q - 52) :=
        mul_le_mul_of_nonneg_right hrhe hpow.le
  _ = (2 : ℚ) ^ (expOf q + 1) := hmerge

theorem roundF_mono {a b : ℚ} (ha : 0 ≤ a) (hab : a ≤ b) : roundF a ≤ roundF b := by
  rcases eq_or_lt_of_le ha with h0 | h0
  · rw [← h0, roundF_zero]
    exact roundF_nonneg (le_trans ha hab)
  · have hb : 0 < b := lt_of_lt_of_le h0 hab
    have hee : expOf a ≤ expOf b := by
      by_contra hlt
      push_neg at hlt
      have h1 := (expOf_spec h0).1
      have h2 := (expOf_spec hb).2
      have h4 : (2 : ℚ) ^ (expOf b + 1) ≤ (2 : ℚ) ^ expOf a :=
        zpow_le_zpow_right₀ (by norm_num) (by omega)
      linarith
    rcases eq_or_lt_of_le hee with heq | hlt
    · rw [roundF_def a h0.ne', roundF_def b hb.ne', ← heq]
      have hpow : (0 : ℚ) < (2 : ℚ) ^ (expOf a - 52) := by positivity
      have hdiv : a / (2 : ℚ) ^ (expOf a - 52) ≤ b / (2 : ℚ) ^ (expOf a - 52) :=
        (div_le_div_right hpow).mpr hab
      exact mul_le_mul_of_nonneg_right (by exact_mod_cast rhe_mono hdiv) hpow.le
    · calc roundF a ≤ (2 : ℚ) ^ (expOf a + 1) := roundF_le_pow h0
      _ ≤ (2 : ℚ) ^ expOf b := zpow_le_zpow_right₀ (by norm_num) (by omega)
      _ ≤ roundF b := pow_expOf_le_roundF hb

/-! ### Data model (src/model/invoice.go)

The two child tables (`InvoiceItem`, `InvoiceAdjustment`) carry the same
identity structure (`ID`, `InvoiceID`) and only differ in their payload
fields; `invoiceRepository.Update` runs the same reconciliation code on
both, duplicated verbatim in the Go source. The embedding factors the
identity part into `Child` so the reconciliation is defined once. -/

structure ItemFields where
  name : String
  description : String
  quantity : ℤ
  price : ℤ
deriving DecidableEq

structure AdjustmentFields where
  description : String
  type : String
  amount : ℤ
deriving DecidableEq

/-- A child row of an invoice: storage identity (`ID`, zero meaning
"not yet assigned", as for a Go `uint` zero value), owning invoice, and
the payload fields. -/
structure Child (α : Type) where
  id : ℕ
  invoiceID : ℕ
  fields : α
deriving DecidableEq

abbrev InvoiceItem := Child ItemFields

abbrev InvoiceAdjustment := Child AdjustmentFields

/-- The invoice aggregate (`model.Invoice`); `createdYear`/`createdMonth`
embed the `created_at` components that invoice numbering extracts. -/
structure Invoice where
  id : ℕ
  userID : ℕ
  invoiceNumber : String
  customerName : String
  customerEmail : String
  dueDate : Option String
  taxRate : ℚ
  status : String
  subtotal : ℤ
  taxAmount : ℤ
  adjustmentsTotal : ℤ
  total : ℤ
  bankAccountID : Option ℕ
  items : List InvoiceItem
  adjustments : List InvoiceAdjustment
  createdYear : ℕ
  createdMonth : ℕ
deriving DecidableEq

/-! ### Calculator (handler/invoice_handler.go lines 15-18, 174-190, 352-372) -/

/-- `rupiahToCents`: `int(rupiah * 100)` — one binary64 multiplication,
then truncation toward zero. -/
def rupiahToCents (rupiah : ℚ) : ℤ := trunc (roundF (qmul rupiah 100))

/-- The `subtotal` accumulation loop of `CreateInvoice` and `UpdateInvoice`:
`subtotal += item.Quantity * item.Price` over the items, all in `int`. -/
def calcSubtotal (items : List InvoiceItem) : ℤ :=
  items.foldl (fun acc item => acc + item.fields.quantity * item.fields.price) 0

/-- The `adjustmentsTotal` loop: additions add, anything else subtracts. -/
def calcAdjustmentsTotal (adjs : List InvoiceAdjustment) : ℤ :=
  adjs.foldl
    (fun acc adj =>
      if adj.fields.type = "addition" then acc + adj.fields.amount
      else acc - adj.fields.amount)
    0

/-- `taxAmount := int(float64(subtotal) * req.TaxRate / 100.0)`: the
`int → float64` conversion rounds, the product rounds, the division by the
exactly-representable 100.0 rounds, then `int(...)` truncates. -/
def calcTaxAmount (subtotal : ℤ) (taxRate : ℚ) : ℤ :=
  trunc (roundF (qmul (roundF (qmul (roundF (subtotal : ℚ)) taxRate)) (Rat.divInt 1 100)))

theorem calcTaxAmount_def (s : ℤ) (r : ℚ) :
    calcTaxAmount s r = trunc (roundF (roundF (roundF (s : ℚ) * r) / 100)) := by
  rw [calcTaxAmount, qmul_eq, qmul_eq, Rat.divInt_eq_div]
  norm_num [mul_one_div]

structure Totals where
  subtotal : ℤ
  taxAmount : ℤ
  adjustmentsTotal : ℤ
  total : ℤ
deriving DecidableEq

/-- The derived-field computation shared by `CreateInvoice` (lines 174-190)
and the recomputation block of `UpdateInvoice` (lines 352-372). -/
def computeTotals (items : List InvoiceItem) (adjs : List InvoiceAdjustment)
    (taxRate : ℚ) : Totals :=
  let subtotal := calcSubtotal items
  let adjustmentsTotal := calcAdjustmentsTotal adjs
  let taxAmount := calcTaxAmount subtotal taxRate
  { subtotal := subtotal
    taxAmount := taxAmount
    adjustmentsTotal := adjustmentsTotal
    total := subtotal + taxAmount + adjustmentsTotal }

theorem foldl_add_shift {α : Type} (g : α → ℤ) (l : List α) : ∀ a : ℤ,
    l.foldl (fun acc x => acc + g x) a = a + (l.map g).sum := by
  induction l with
  | nil => intro a; simp
  | cons x xs ih =>
    intro a
    simp only [List.foldl_cons, List.map_cons, List.sum_cons, ih]
    ring

theorem calcSubtotal_eq_sum (items : List InvoiceItem) :
    calcSubtotal items =
      (items.map fun item => item.fields.quantity * item.fields.price).sum := by
  rw [calcSubtotal, foldl_add_shift]
  ring

theorem calcAdjustmentsTotal_eq_sum (adjs : List InvoiceAdjustment) :
    calcAdjustmentsTotal adjs =
      (adjs.map fun adj =>
        if adj.fields.type = "addition" then adj.fields.amount
        else -adj.fields.amount).sum := by
  rw [calcAdjustmentsTotal]
  have hfun : (fun (acc : ℤ) (adj : InvoiceAdjustment) =>
      if adj.fields.type = "addition" then acc + adj.fields.amount
      else acc - adj.fields.amount) =
      fun acc adj => acc +
        (if adj.fields.type = "addition" then adj.fields.amount
         else -adj.fields.amount) := by
    funext acc adj
    split_ifs <;> ring
  rw [hfun, foldl_add_shift]
  ring

theorem calcAdjustmentsTotal_split (adjs : List InvoiceAdjustment)
    (h : ∀ a ∈ adjs, a.fields.type = "addition" ∨ a.fields.type = "deduction") :
    calcAdjustmentsTotal adjs =
      ((adjs.filter fun a => a.fields.type == "addition").map
        fun a => a.fields.amount).sum -
      ((adjs.filter fun a => a.fields.type == "deduction").map
        fun a => a.fields.amount).sum := by
  rw [calcAdjustmentsTotal_eq_sum]
  induction adjs with
  | nil => simp
  | cons x xs ih =>
    have hx := h x (by simp)
    have hxs := ih fun a ha => h a (by simp [ha])
    simp only [List.map_cons, List.sum_cons, List.filter_cons]
    rcases hx with hadd | hded
    · simp only [hadd]
      simp [hxs]
      try ring
    · simp only [hded]
      simp [hxs]
      try ring

/-! ### Repository (src/repository/invoice_repository.go)

A storage state is a list of rows per table plus the next storage-assigned
primary key for each table. A transaction body returns `Option`:
`none` mirrors an error return from the `gorm.DB.Transaction` closure, on
which GORM rolls the transaction back. The `oracle` argument decides which
write operation (counted in execution order) fails, so atomicity can be
stated for every failure point. Each loop also records the write
operations it emitted (`saves`, `creates`, `deletes`), which are exactly
the `tx.Save` / `tx.Create` / `tx.Delete` calls of the Go code. -/

def childIDs {α : Type} (rows : List (Child α)) : List ℕ := rows.map (·.id)

/-- `tx.Save`: overwrite the row carrying the same primary key. -/
def saveRow {α : Type} (c : Child α) (rows : List (Child α)) : List (Child α) :=
  rows.map fun r => if r.id = c.id then c else r

/-- `tx.Delete`: remove the row carrying the given primary key. -/
def deleteRow {α : Type} (rid : ℕ) (rows : List (Child α)) : List (Child α) :=
  rows.filter fun r => r.id ≠ rid

structure UpsertState (α : Type) where
  kept : List ℕ
  table : List (Child α)
  nextID : ℕ
  ctr : ℕ
  saves : List (Child α)
  creates : List (Child α)
deriving DecidableEq

/-- The update-or-create loop of `invoiceRepository.Update` (lines 92-110
for items, repeated verbatim on lines 112-130 for adjustments): each
desired child first gets its `InvoiceID` set; a child whose identity is
nonzero and among the existing identities is marked kept and saved,
anything else has its identity cleared and is created with the next
storage-assigned identity. The Go code guards the loop with
`if len(...) > 0`, which is the same as running it on the empty list. -/
def upsertLoop {α : Type} (oracle : ℕ → Bool) (invID : ℕ) (existingIDs : List ℕ) :
    List (Child α) → UpsertState α → Option (UpsertState α)
  | [], st => some st
  | d :: rest, st =>
    let d1 : Child α := { d with invoiceID := invID }
    if d1.id ≠ 0 ∧ d1.id ∈ existingIDs then
      if oracle st.ctr then none
      else upsertLoop oracle invID existingIDs rest
        { kept := st.kept ++ [d1.id]
          table := saveRow d1 st.table
          nextID := st.nextID
          ctr := st.ctr + 1
          saves := st.saves ++ [d1]
          creates := st.creates }
    else
      let d2 : Child α := { d1 with id := st.nextID }
      if oracle st.ctr then none
      else upsertLoop oracle invID existingIDs rest
        { kept := st.kept
          table := st.table ++ [d2]
          nextID := st.nextID + 1
          ctr := st.ctr + 1
          saves := st.saves
          creates := st.creates ++ [d2] }

structure DeleteState (α : Type) where
  table : List (Child α)
  ctr : ℕ
  deletes : List (Child α)
deriving DecidableEq

/-- The deletion loop of `invoiceRepository.Update` (lines 132-148): every
existing row whose identity was not marked kept is deleted. -/
def deleteLoop {α : Type} (oracle : ℕ → Bool) (kept : List ℕ) :
    List (Child α) → DeleteState α → Option (DeleteState α)
  | [], st => some st
  | e :: rest, st =>
    if e.id ∉ kept then
      if oracle st.ctr then none
      else deleteLoop oracle kept rest
        { table := deleteRow e.id st.table
          ctr := st.ctr + 1
          deletes := st.deletes ++ [e] }
    else deleteLoop oracle kept rest st

structure DB where
  invoices : List Invoice
  items : List InvoiceItem
  adjustments : List InvoiceAdjustment
  nextInvoiceID : ℕ
  nextItemID : ℕ
  nextAdjustmentID : ℕ
deriving DecidableEq

structure UpdateTrace where
  itemSaves : List InvoiceItem
  itemCreates : List InvoiceItem
  itemDeletes : List InvoiceItem
  adjustmentSaves : List InvoiceAdjustment
  adjustmentCreates : List InvoiceAdjustment
  adjustmentDeletes : List InvoiceAdjustment
deriving DecidableEq

/-- The transaction body of `invoiceRepository.Update` (lines 69-160):
read the existing children, run the update-or-create loop for items and
adjustments, delete the non-kept existing rows of both collections, then
save the parent row with its child collections stripped
(`invoiceCopy.Items = nil; invoiceCopy.Adjustments = nil`). -/
def updateTx (oracle : ℕ → Bool) (db : DB) (inv : Invoice) :
    Option (DB × UpdateTrace) :=
  let existingItems := db.items.filter fun r => r.invoiceID = inv.id
  let existingAdjustments := db.adjustments.filter fun r => r.invoiceID = inv.id
  match upsertLoop oracle inv.id (childIDs existingItems) inv.items
      ⟨[], db.items, db.nextItemID, 0, [], []⟩ with
  | none => none
  | some istate =>
    match upsertLoop oracle inv.id (childIDs existingAdjustments) inv.adjustments
        ⟨[], db.adjustments, db.nextAdjustmentID, istate.ctr, [], []⟩ with
    | none => none
    | some astate =>
      match deleteLoop oracle istate.kept existingItems ⟨istate.table, astate.ctr, []⟩ with
      | none => none
      | some idel =>
        match deleteLoop oracle astate.kept existingAdjustments
            ⟨astate.table, idel.ctr, []⟩ with
        | none => none
        | some adel =>
          if oracle adel.ctr then none
          else
            let invoiceCopy := { inv with items := [], adjustments := [] }
            some
              ({ invoices := db.invoices.map fun r => if r.id = inv.id then invoiceCopy else r
                 items := idel.table
                 adjustments := adel.table
                 nextInvoiceID := db.nextInvoiceID
                 nextItemID := istate.nextID
                 nextAdjustmentID := astate.nextID },
               ⟨istate.saves, istate.creates, idel.deletes,
                astate.saves, astate.creates, adel.deletes⟩)

/-- `invoiceRepository.Update`: the transaction wrapper — on an error from
the body, GORM rolls back and the state is unchanged. -/
def updateInvoiceRepo (oracle : ℕ → Bool) (db : DB) (inv : Invoice) : DB :=
  match updateTx oracle db inv with
  | some (db2, _) => db2
  | none => db

/-- Zero-pad to two digits, as Go `%02d` for the month values used here. -/
def pad2 (n : ℕ) : String := if n < 10 then "0" ++ toString n else toString n

/-- Zero-pad to three digits, as Go `%03d`. -/
def pad3 (n : ℕ) : String :=
  if n < 10 then "00" ++ toString n
  else if n < 100 then "0" ++ toString n
  else toString n

/-- `fmt.Sprintf("INV-%d%02d-%03d", year, month, count+1)`. -/
def formatInvoiceNumber (year month seq : ℕ) : String :=
  "INV-" ++ toString year ++ pad2 month ++ "-" ++ pad3 seq

/-- The count query of `invoiceRepository.Create`: invoices of this user
whose `created_at` falls in the given calendar year and month. -/
def countInvoicesInMonth (db : DB) (userID year month : ℕ) : ℕ :=
  (db.invoices.filter fun r =>
    r.userID = userID ∧ r.createdYear = year ∧ r.createdMonth = month).length

def insertRows {α : Type} (invID : ℕ) :
    List (Child α) → List (Child α) → ℕ → List (Child α) × ℕ
  | [], table, nextID => (table, nextID)
  | d :: rest, table, nextID =>
    insertRows invID rest (table ++ [{ d with id := nextID, invoiceID := invID }])
      (nextID + 1)

/-- `invoiceRepository.Create` (lines 52-67): count this owner's invoices
in the current calendar month, assign `INV-{year}{month:02}-{count+1:03}`,
then insert the invoice (storage assigns the identities). -/
def createInvoiceRepo (db : DB) (year month : ℕ) (inv : Invoice) : DB × Invoice :=
  let count := countInvoicesInMonth db inv.userID year month
  let assigned := { inv with
    id := db.nextInvoiceID
    invoiceNumber := formatInvoiceNumber year month (count + 1)
    createdYear := year
    createdMonth := month }
  let itemsIns := insertRows assigned.id inv.items db.items db.nextItemID
  let adjustmentsIns :=
    insertRows assigned.id inv.adjustments db.adjustments db.nextAdjustmentID
  ({ invoices := db.invoices ++ [{ assigned with items := [], adjustments := [] }]
     items := itemsIns.1
     adjustments := adjustmentsIns.1
     nextInvoiceID := db.nextInvoiceID + 1
     nextItemID := itemsIns.2
     nextAdjustmentID := adjustmentsIns.2 }, assigned)

/-- `invoiceRepository.FindByID` with its two preloads. -/
def findByID (db : DB) (iid : ℕ) : Option Invoice :=
  match db.invoices.find? fun r => r.id = iid with
  | none => none
  | some row => some { row with
      items := db.items.filter fun r => r.invoiceID = iid
      adjustments := db.adjustments.filter fun r => r.invoiceID = iid }

/-- `invoiceRepository.FindByUserID` with its two preloads; the
`created_at` ordering is not modelled. -/
def findByUserID (db : DB) (userID : ℕ) : List Invoice :=
  (db.invoices.filter fun r => r.userID = userID).map fun row =>
    { row with
      items := db.items.filter fun r => r.invoiceID = row.id
      adjustments := db.adjustments.filter fun r => r.invoiceID = row.id }

/-- `invoiceRepository.Delete`: remove the invoice row by primary key. -/
def deleteInvoiceRepo (db : DB) (iid : ℕ) : DB :=
  { db with invoices := db.invoices.filter fun r => r.id ≠ iid }

/-! ### Handlers (src/handler/invoice_handler.go)

The authenticated caller is the `userClaims.ID` extracted from the JWT by
`authSession`; the handlers below take it as an argument (the
unauthenticated 401 path carries no invoice logic). A handler returns the
HTTP response and the resulting storage state. -/

structure Response where
  status : ℕ
  success : Bool
  message : String
deriving DecidableEq

def digitsToNat : List Char → ℕ → ℕ
  | [], acc => acc
  | c :: cs, acc => digitsToNat cs (acc * 10 + (c.toNat - 48))

/-- `strconv.ParseUint(s, 10, 32)`: nonempty, digits only, value below
`2 ^ 32`. -/
def parseUint32 (s : String) : Option ℕ :=
  if s.data ≠ [] ∧ s.data.all (fun c => c.isDigit) then
    if digitsToNat s.data 0 < 2 ^ 32 then some (digitsToNat s.data 0) else none
  else none

/-- Abstraction of Go `time.Parse("2006-01-02", s)`, used only for its
success/failure branching: no claim in this development depends on which
strings parse as dates, and every concrete input below leaves the due date
absent. -/
def parseDueDate (s : String) : Option String :=
  if s.data.length = 10 then some s else none

structure UpdateItemRequest where
  id : Option String
  name : String
  description : String
  quantity : ℤ
  price : ℚ
deriving DecidableEq

structure UpdateAdjustmentRequest where
  id : Option String
  description : String
  type : String
  amount : ℚ
deriving DecidableEq

/-- `model.UpdateInvoiceRequest`: every field is a pointer or slice in Go,
`none` meaning the field was absent from the JSON body and, for the child
collections, `some []` meaning present but empty. -/
structure UpdateInvoiceRequest where
  customerName : Option String
  customerEmail : Option String
  dueDate : Option String
  taxRate : Option ℚ
  status : Option String
  items : Option (List UpdateItemRequest)
  adjustments : Option (List UpdateAdjustmentRequest)
  bankAccountID : Option String
deriving DecidableEq

/-- Conversion of one desired item in `UpdateInvoice` (lines 312-327): the
price is converted by `rupiahToCents`; a supplied, nonempty, parseable
identity is kept, otherwise the identity stays zero. -/
def toItemChild (r : UpdateItemRequest) : InvoiceItem :=
  { id := match r.id with
      | some s =>
        if s ≠ "" then
          match parseUint32 s with
          | some n => n
          | none => 0
        else 0
      | none => 0
    invoiceID := 0
    fields := { name := r.name
                description := r.description
                quantity := r.quantity
                price := rupiahToCents r.price } }

/-- Conversion of one desired adjustment in `UpdateInvoice` (lines 334-347). -/
def toAdjustmentChild (r : UpdateAdjustmentRequest) : InvoiceAdjustment :=
  { id := match r.id with
      | some s =>
        if s ≠ "" then
          match parseUint32 s with
          | some n => n
          | none => 0
        else 0
      | none => 0
    invoiceID := 0
    fields := { description := r.description
                type := r.type
                amount := rupiahToCents r.amount } }

/-- The due-date patch of `UpdateInvoice` (lines 287-301): an empty string
clears the date, an unparseable string is a 400. -/
def applyDueDate (inv : Invoice) (dd : Option String) : Option Invoice :=
  match dd with
  | none => some inv
  | some s =>
    if s = "" then some { inv with dueDate := none }
    else
      match parseDueDate s with
      | some d => some { inv with dueDate := some d }
      | none => none

/-- The customer name and email patches of `UpdateInvoice` (lines 281-286). -/
def applyScalars (inv : Invoice) (req : UpdateInvoiceRequest) : Invoice :=
  let inv1 := match req.customerName with
    | some v => { inv with customerName := v }
    | none => inv
  match req.customerEmail with
  | some v => { inv1 with customerEmail := v }
  | none => inv1

/-- The tax rate and status patches of `UpdateInvoice` (lines 302-307). -/
def applyTaxStatus (inv : Invoice) (req : UpdateInvoiceRequest) : Invoice :=
  let inv4 := match req.taxRate with
    | some v => { inv with taxRate := v }
    | none => inv
  match req.status with
  | some v => { inv4 with status := v }
  | none => inv4

/-- The child-collection patches of `UpdateInvoice` (lines 309-350): a
supplied collection (even an empty one) wholesale-replaces the in-memory
collection, an absent collection leaves the preloaded rows in place. -/
def applyChildren (inv : Invoice) (req : UpdateInvoiceRequest) : Invoice :=
  let inv6 := match req.items with
    | some its => { inv with items := its.map toItemChild }
    | none => inv
  match req.adjustments with
  | some adjs => { inv6 with adjustments := adjs.map toAdjustmentChild }
  | none => inv6

/-- The derived-field recomputation guard of `UpdateInvoice`
(lines 352-373). -/
def applyRecompute (inv : Invoice) (req : UpdateInvoiceRequest) : Invoice :=
  if req.items ≠ none ∨ req.adjustments ≠ none ∨ req.taxRate ≠ none then
    let t := computeTotals inv.items inv.adjustments inv.taxRate
    { inv with subtotal := t.subtotal
               taxAmount := t.taxAmount
               adjustmentsTotal := t.adjustmentsTotal
               total := t.total }
  else inv

/-- The bank-account patch of `UpdateInvoice` (lines 375-386). -/
def applyBankAccount (inv : Invoice) (req : UpdateInvoiceRequest) : Invoice :=
  match req.bankAccountID with
  | some s =>
    if s = "" then { inv with bankAccountID := none }
    else
      match parseUint32 s with
      | some n => { inv with bankAccountID := some n }
      | none => inv
  | none => inv

/-- The patch pipeline of `UpdateInvoice` after the due-date step: tax
rate and status, child collections, recomputation guard, bank account. -/
def patchAfterDueDate (inv : Invoice) (req : UpdateInvoiceRequest) : Invoice :=
  applyBankAccount (applyRecompute (applyChildren (applyTaxStatus inv req) req) req) req

/-- `UpdateInvoice` (lines 233-400). The handler binds the request but —
unlike `CreateInvoice` — never calls `h.validate.Struct(req)`, so no field
of an update request is validated. Totals are recomputed exactly when
items, adjustments, or the tax rate were supplied. -/
def updateInvoiceHandler (oracle : ℕ → Bool) (db : DB) (callerID : ℕ)
    (idStr : String) (req : UpdateInvoiceRequest) : Response × DB :=
  match parseUint32 idStr with
  | none => (⟨400, false, "invalid invoice id"⟩, db)
  | some iid =>
    match findByID db iid with
    | none => (⟨404, false, "invoice not found"⟩, db)
    | some invoice0 =>
      if invoice0.userID ≠ callerID then (⟨403, false, "access denied"⟩, db)
      else
        match applyDueDate (applyScalars invoice0 req) req.dueDate with
        | none => (⟨400, false, "invalid due date format"⟩, db)
        | some inv3 =>
          match updateTx oracle db (patchAfterDueDate inv3 req) with
          | none => (⟨500, false, "failed to update invoice"⟩, db)
          | some (db2, _) => (⟨200, true, ""⟩, db2)

/-- `GetInvoice` (lines 66-108): reads never write. -/
def getInvoiceHandler (db : DB) (callerID : ℕ) (idStr : String) : Response × DB :=
  match parseUint32 idStr with
  | none => (⟨400, false, "invalid invoice id"⟩, db)
  | some iid =>
    match findByID db iid with
    | none => (⟨404, false, "invoice not found"⟩, db)
    | some invoice =>
      if invoice.userID ≠ callerID then (⟨403, false, "access denied"⟩, db)
      else (⟨200, true, ""⟩, db)

/-- `DeleteInvoice` (lines 403-453). -/
def deleteInvoiceHandler (db : DB) (callerID : ℕ) (idStr : String) : Response × DB :=
  match parseUint32 idStr with
  | none => (⟨400, false, "invalid invoice id"⟩, db)
  | some iid =>
    match findByID db iid with
    | none => (⟨404, false, "invoice not found"⟩, db)
    | some invoice =>
      if invoice.userID ≠ callerID then (⟨403, false, "access denied"⟩, db)
      else (⟨200, true, "invoice deleted successfully"⟩, deleteInvoiceRepo db iid)

/-- `GetInvoices` (lines 33-63): the list endpoint only ever queries by the
authenticated user. -/
def getInvoicesHandler (db : DB) (callerID : ℕ) : List Invoice :=
  findByUserID db callerID

structure CreateItemRequest where
  name : String
  description : String
  quantity : ℤ
  price : ℚ
deriving DecidableEq

structure CreateAdjustmentRequest where
  description : String
  type : String
  amount : ℚ
deriving DecidableEq

/-- The item conversion of `CreateInvoice` (lines 153-162): each supplied
major-currency price is converted to minor units once, here, before any
total is computed. -/
def convertCreateItems (reqs : List CreateItemRequest) : List InvoiceItem :=
  reqs.map fun r =>
    { id := 0
      invoiceID := 0
      fields := { name := r.name
                  description := r.description
                  quantity := r.quantity
                  price := rupiahToCents r.price } }

/-- The adjustment conversion of `CreateInvoice` (lines 164-172). -/
def convertCreateAdjustments (reqs : List CreateAdjustmentRequest) :
    List InvoiceAdjustment :=
  reqs.map fun r =>
    { id := 0
      invoiceID := 0
      fields := { description := r.description
                  type := r.type
                  amount := rupiahToCents r.amount } }

/-- The conversion and computation core of `CreateInvoice`
(lines 153-216): convert the request children to minor units, compute the
derived fields, build the invoice aggregate. -/
def createInvoiceCore (callerID : ℕ) (customerName customerEmail : String)
    (dueDate : Option String) (taxRate : ℚ) (status : String)
    (itemsReq : List CreateItemRequest) (adjustmentsReq : List CreateAdjustmentRequest)
    (bankAccountID : Option ℕ) : Invoice :=
  let items := convertCreateItems itemsReq
  let adjustments := convertCreateAdjustments adjustmentsReq
  let t := computeTotals items adjustments taxRate
  { id := 0
    userID := callerID
    invoiceNumber := ""
    customerName := customerName
    customerEmail := customerEmail
    dueDate := dueDate
    taxRate := taxRate
    status := status
    subtotal := t.subtotal
    taxAmount := t.taxAmount
    adjustmentsTotal := t.adjustmentsTotal
    total := t.total
    bankAccountID := bankAccountID
    items := items
    adjustments := adjustments
    createdYear := 0
    createdMonth := 0 }

/-! ### Reconciliation lemmas -/

/-- A transaction body that succeeded under some failure oracle behaves
exactly as under the never-failing oracle: the oracle answered `false` at
every operation that actually ran. -/
theorem upsertLoop_agree {α : Type} (oracle : ℕ → Bool) (invID : ℕ)
    (exIDs : List ℕ) : ∀ (desired : List (Child α)) (st st2 : UpsertState α),
    upsertLoop oracle invID exIDs desired st = some st2 →
    upsertLoop (fun _ => false) invID exIDs desired st = some st2 := by
  intro desired
  induction desired with
  | nil => intro st st2 h; exact h
  | cons d rest ih =>
    intro st st2 h
    simp only [upsertLoop] at h ⊢
    split_ifs at h ⊢ <;> first | exact ih _ _ h | simp_all

theorem deleteLoop_agree {α : Type} (oracle : ℕ → Bool) (kept : List ℕ) :
    ∀ (existing : List (Child α)) (st st2 : DeleteState α),
    deleteLoop oracle kept existing st = some st2 →
    deleteLoop (fun _ => false) kept existing st = some st2 := by
  intro existing
  induction existing with
  | nil => intro st st2 h; exact h
  | cons e rest ih =>
    intro st st2 h
    simp only [deleteLoop] at h ⊢
    split_ifs at h ⊢ <;> first | exact ih _ _ h | simp_all

theorem updateTx_agree (oracle : ℕ → Bool) (db : DB) (inv : Invoice)
    (r : DB × UpdateTrace) (h : updateTx oracle db inv = some r) :
    updateTx (fun _ => false) db inv = some r := by
  rw [updateTx] at h ⊢
  cases hi : upsertLoop oracle inv.id
      (childIDs (db.items.filter fun c => c.invoiceID = inv.id)) inv.items
      ⟨[], db.items, db.nextItemID, 0, [], []⟩ with
  | none => rw [hi] at h; simp at h
  | some istate =>
    rw [hi] at h
    dsimp only at h
    rw [upsertLoop_agree oracle _ _ _ _ _ hi]
    dsimp only
    cases ha : upsertLoop oracle inv.id
        (childIDs (db.adjustments.filter fun c => c.invoiceID = inv.id)) inv.adjustments
        ⟨[], db.adjustments, db.nextAdjustmentID, istate.ctr, [], []⟩ with
    | none => rw [ha] at h; simp at h
    | some astate =>
      rw [ha] at h
      dsimp only at h
      rw [upsertLoop_agree oracle _ _ _ _ _ ha]
      dsimp only
      cases hd : deleteLoop oracle istate.kept
          (db.items.filter fun c => c.invoiceID = inv.id)
          ⟨istate.table, astate.ctr, []⟩ with
      | none => rw [hd] at h; simp at h
      | some idel =>
        rw [hd] at h
        dsimp only at h
        rw [deleteLoop_agree oracle _ _ _ _ hd]
        dsimp only
        cases hd2 : deleteLoop oracle astate.kept
            (db.adjustments.filter fun c => c.invoiceID = inv.id)
            ⟨astate.table, idel.ctr, []⟩ with
        | none => rw [hd2] at h; simp at h
        | some adel =>
          rw [hd2] at h
          dsimp only at h
          rw [deleteLoop_agree oracle _ _ _ _ hd2]
          dsimp only
          rcases ho : oracle adel.ctr with _ | _
          · rw [ho] at h
            simpa using h
          · rw [ho] at h
            simp at h

/-- The desired children that resolve to an existing identity (the
update-or-create loop marks these kept and saves them). -/
def keptChildren {α : Type} (exIDs : List ℕ) (desired : List (Child α)) :
    List (Child α) :=
  desired.filter fun d => decide (d.id ≠ 0 ∧ d.id ∈ exIDs)

/-- The desired children that do not resolve to an existing identity (the
loop clears their identity and creates them). -/
def newChildren {α : Type} (exIDs : List ℕ) (desired : List (Child α)) :
    List (Child α) :=
  desired.filter fun d => !decide (d.id ≠ 0 ∧ d.id ∈ exIDs)

theorem upsertLoop_clean {α : Type} (invID : ℕ) (exIDs : List ℕ) :
    ∀ (desired : List (Child α)) (st : UpsertState α),
    ∃ st2 : UpsertState α,
      upsertLoop (fun _ => false) invID exIDs desired st = some st2 ∧
      st2.kept = st.kept ++ (keptChildren exIDs desired).map (·.id) ∧
      st2.saves = st.saves ++
        (keptChildren exIDs desired).map (fun d => { d with invoiceID := invID }) ∧
      st2.creates.map (·.fields) = st.creates.map (·.fields) ++
        (newChildren exIDs desired).map (·.fields) ∧
      st2.creates.length = st.creates.length + (newChildren exIDs desired).length ∧
      st2.ctr = st.ctr + desired.length ∧
      st2.nextID = st.nextID + (newChildren exIDs desired).length := by
  intro desired
  induction desired with
  | nil =>
    intro st
    exact ⟨st, rfl, by simp [keptChildren], by simp [keptChildren],
      by simp [newChildren], by simp [newChildren], by simp, by simp [newChildren]⟩
  | cons d rest ih =>
    intro st
    by_cases hc : d.id ≠ 0 ∧ d.id ∈ exIDs
    · obtain ⟨st2, hrun, hkept, hsaves, hcf, hcl, hctr, hnid⟩ := ih
        { kept := st.kept ++ [d.id]
          table := saveRow { d with invoiceID := invID } st.table
          nextID := st.nextID
          ctr := st.ctr + 1
          saves := st.saves ++ [{ d with invoiceID := invID }]
          creates := st.creates }
      refine ⟨st2, ?_, ?_, ?_, ?_, ?_, ?_, ?_⟩
      · simp only [upsertLoop]
        rw [if_pos (by simpa using hc)]
        simpa using hrun
      · rw [hkept]
        simp [keptChildren, hc]
      · rw [hsaves]
        simp [keptChildren, hc]
      · rw [hcf]
        simp [newChildren, hc]
      · rw [hcl]
        simp [newChildren, hc]
      · rw [hctr]
        simp only [List.length_cons]
        omega
      · rw [hnid]
        simp [newChildren, hc]
    · obtain ⟨st2, hrun, hkept, hsaves, hcf, hcl, hctr, hnid⟩ := ih
        { kept := st.kept
          table := st.table ++ [{ d with invoiceID := invID, id := st.nextID }]
          nextID := st.nextID + 1
          ctr := st.ctr + 1
          saves := st.saves
          creates := st.creates ++ [{ d with invoiceID := invID, id := st.nextID }] }
      refine ⟨st2, ?_, ?_, ?_, ?_, ?_, ?_, ?_⟩
      · simp only [upsertLoop]
        rw [if_neg (by simpa using hc)]
        simpa using hrun
      · rw [hkept]
        simp [keptChildren, hc]
      · rw [hsaves]
        simp [keptChildren, hc]
      · rw [hcf]
        have hb : (decide (d.id = 0) || !decide (d.id ∈ exIDs)) = true := by
          by_cases h0 : d.id = 0 <;> by_cases h1 : d.id ∈ exIDs <;> simp_all
        simp [newChildren, hc, List.filter_cons, hb]
      · rw [hcl]
        simp only [newChildren, List.filter_cons]
        simp [hc]
        omega
      · rw [hctr]
        simp only [List.length_cons]
        omega
      · rw [hnid]
        simp only [newChildren, List.filter_cons]
        simp [hc]
        omega

theorem deleteLoop_clean {α : Type} (kept : List ℕ) :
    ∀ (existing : List (Child α)) (st : DeleteState α),
    ∃ st2 : DeleteState α,
      deleteLoop (fun _ => false) kept existing st = some st2 ∧
      st2.deletes = st.deletes ++ (existing.filter fun e => decide (e.id ∉ kept)) ∧
      st2.ctr = st.ctr + (existing.filter fun e => decide (e.id ∉ kept)).length ∧
      st2.table = st.table.filter
        (fun r => decide (r.id ∉ (existing.filter fun e => decide (e.id ∉ kept)).map (·.id))) := by
  intro existing
  induction existing with
  | nil =>
    intro st
    refine ⟨st, rfl, by simp, by simp, ?_⟩
    simp
  | cons e rest ih =>
    intro st
    by_cases hc : e.id ∉ kept
    · obtain ⟨st2, hrun, hdel, hctr, htab⟩ := ih
        { table := deleteRow e.id st.table
          ctr := st.ctr + 1
          deletes := st.deletes ++ [e] }
      refine ⟨st2, ?_, ?_, ?_, ?_⟩
      · simp only [deleteLoop]
        rw [if_pos hc]
        simpa using hrun
      · rw [hdel]
        simp [hc]
      · rw [hctr]
        simp [hc]
        omega
      · rw [htab]
        simp only [deleteRow]
        rw [List.filter_filter]
        have hpred : ∀ r ∈ st.table,
            (decide (r.id ∉ (rest.filter fun x => decide (x.id ∉ kept)).map (·.id)) &&
              decide (r.id ≠ e.id)) =
            decide (r.id ∉ ((e :: rest).filter fun x => decide (x.id ∉ kept)).map (·.id)) := by
          intro r _
          rw [List.filter_cons, if_pos (by simpa using hc)]
          by_cases h1 : r.id = e.id <;>
            by_cases h2 : r.id ∈ (rest.filter fun x => decide (x.id ∉ kept)).map (·.id) <;>
            simp_all
        exact List.filter_congr hpred
    · obtain ⟨st2, hrun, hdel, hctr, htab⟩ := ih st
      refine ⟨st2, ?_, ?_, ?_, ?_⟩
      · simp only [deleteLoop]
        rw [if_neg hc]
        exact hrun
      · rw [hdel]
        simp [hc]
      · rw [hctr]
        simp [hc]
      · rw [htab]
        have hskip : ((e :: rest).filter fun x => decide (x.id ∉ kept)) =
            rest.filter fun x => decide (x.id ∉ kept) := by
          rw [List.filter_cons, if_neg (by simpa using hc)]
        rw [hskip]

theorem saveRow_noop {α : Type} (c : Child α) (rows : List (Child α))
    (h : ∀ r ∈ rows, r.id = c.id → r = c) : saveRow c rows = rows := by
  induction rows with
  | nil => rfl
  | cons r rs ih =>
    rw [saveRow, List.map_cons]
    have h1 : (if r.id = c.id then c else r) = r := by
      split_ifs with he
      · exact (h r (by simp) he).symm
      · rfl
    have h2 := ih fun x hx hxe => h x (List.mem_cons_of_mem _ hx) hxe
    rw [saveRow] at h2
    rw [h1, h2]

theorem upsertLoop_preserved {α : Type} (invID : ℕ) (exIDs : List ℕ) :
    ∀ (desired : List (Child α)) (st : UpsertState α),
    (∀ d ∈ desired, (d.id ≠ 0 ∧ d.id ∈ exIDs) ∧ d.invoiceID = invID ∧
      (∀ r ∈ st.table, r.id = d.id → r = d)) →
    ∃ st2 : UpsertState α,
      upsertLoop (fun _ => false) invID exIDs desired st = some st2 ∧
      st2.table = st.table ∧
      st2.kept = st.kept ++ desired.map (·.id) ∧
      st2.creates = st.creates ∧
      st2.ctr = st.ctr + desired.length ∧
      st2.nextID = st.nextID := by
  intro desired
  induction desired with
  | nil =>
    intro st _
    exact ⟨st, rfl, rfl, by simp, rfl, by simp, rfl⟩
  | cons d rest ih =>
    intro st hall
    obtain ⟨hc, hinv, hown⟩ := hall d (by simp)
    have heta : ({ d with invoiceID := invID } : Child α) = d := by
      cases d
      simp_all
    have hsave : saveRow ({ d with invoiceID := invID } : Child α) st.table = st.table := by
      rw [heta]
      exact saveRow_noop d st.table hown
    obtain ⟨st2, hrun, htab, hkept, hcreates, hctr, hnid⟩ := ih
      { kept := st.kept ++ [d.id]
        table := saveRow { d with invoiceID := invID } st.table
        nextID := st.nextID
        ctr := st.ctr + 1
        saves := st.saves ++ [{ d with invoiceID := invID }]
        creates := st.creates }
      (by
        intro x hx
        obtain ⟨hc2, hinv2, hown2⟩ := hall x (by simp [hx])
        refine ⟨hc2, hinv2, ?_⟩
        rw [hsave]
        exact hown2)
    refine ⟨st2, ?_, ?_, ?_, ?_, ?_, ?_⟩
    · simp only [upsertLoop]
      rw [if_pos (by simpa using hc)]
      simpa using hrun
    · rw [htab]
      exact hsave
    · rw [hkept]
      simp
    · rw [hcreates]
    · rw [hctr]
      simp only [List.length_cons]
      omega
    · rw [hnid]

/-- Characterization of a reconciliation that encounters no storage
failure: it succeeds, its updates are exactly the desired children whose
identity resolves (with the invoice identity stamped on), its creates are
exactly the remaining desired children (with storage-assigned identities),
and its deletes are exactly the existing rows whose identity was not
marked kept. -/
theorem updateTx_clean_char (db : DB) (inv : Invoice) :
    ∃ (db2 : DB) (trace : UpdateTrace),
      updateTx (fun _ => false) db inv = some (db2, trace) ∧
      trace.itemSaves =
        (keptChildren (childIDs (db.items.filter fun r => r.invoiceID = inv.id))
          inv.items).map (fun d => { d with invoiceID := inv.id }) ∧
      trace.itemCreates.map (·.fields) =
        (newChildren (childIDs (db.items.filter fun r => r.invoiceID = inv.id))
          inv.items).map (·.fields) ∧
      trace.itemCreates.length =
        (newChildren (childIDs (db.items.filter fun r => r.invoiceID = inv.id))
          inv.items).length ∧
      trace.itemDeletes =
        (db.items.filter fun r => r.invoiceID = inv.id).filter
          (fun e => decide (e.id ∉
            (keptChildren (childIDs (db.items.filter fun r => r.invoiceID = inv.id))
              inv.items).map (·.id))) ∧
      trace.adjustmentSaves =
        (keptChildren (childIDs (db.adjustments.filter fun r => r.invoiceID = inv.id))
          inv.adjustments).map (fun d => { d with invoiceID := inv.id }) ∧
      trace.adjustmentCreates.map (·.fields) =
        (newChildren (childIDs (db.adjustments.filter fun r => r.invoiceID = inv.id))
          inv.adjustments).map (·.fields) ∧
      trace.adjustmentCreates.length =
        (newChildren (childIDs (db.adjustments.filter fun r => r.invoiceID = inv.id))
          inv.adjustments).length ∧
      trace.adjustmentDeletes =
        (db.adjustments.filter fun r => r.invoiceID = inv.id).filter
          (fun e => decide (e.id ∉
            (keptChildren (childIDs (db.adjustments.filter fun r => r.invoiceID = inv.id))
              inv.adjustments).map (·.id))) ∧
      db2.invoices = db.invoices.map
        (fun r => if r.id = inv.id then { inv with items := [], adjustments := [] } else r) := by
  obtain ⟨istate, hi, hikept, hisaves, hicf, hicl, hictr, hinid⟩ :=
    upsertLoop_clean inv.id (childIDs (db.items.filter fun r => r.invoiceID = inv.id))
      inv.items ⟨[], db.items, db.nextItemID, 0, [], []⟩
  obtain ⟨astate, ha, hakept, hasaves, hacf, hacl, hactr, hanid⟩ :=
    upsertLoop_clean inv.id (childIDs (db.adjustments.filter fun r => r.invoiceID = inv.id))
      inv.adjustments ⟨[], db.adjustments, db.nextAdjustmentID, istate.ctr, [], []⟩
  obtain ⟨idel, hd, hddel, hdctr, hdtab⟩ :=
    deleteLoop_clean istate.kept (db.items.filter fun r => r.invoiceID = inv.id)
      ⟨istate.table, astate.ctr, []⟩
  obtain ⟨adel, hd2, hddel2, hdctr2, hdtab2⟩ :=
    deleteLoop_clean astate.kept (db.adjustments.filter fun r => r.invoiceID = inv.id)
      ⟨astate.table, idel.ctr, []⟩
  refine ⟨⟨db.invoices.map
        (fun r => if r.id = inv.id then { inv with items := [], adjustments := [] } else r),
      idel.table, adel.table, db.nextInvoiceID, istate.nextID, astate.nextID⟩,
    ⟨istate.saves, istate.creates, idel.deletes,
      astate.saves, astate.creates, adel.deletes⟩,
    ?_, ?_, ?_, ?_, ?_, ?_, ?_, ?_, ?_, ?_⟩
  · rw [updateTx, hi]
    dsimp only
    rw [ha]
    dsimp only
    rw [hd]
    dsimp only
    rw [hd2]
    simp
  · simpa using hisaves
  · simpa using hicf
  · simpa using hicl
  · rw [hddel, hikept]
    simp
  · simpa using hasaves
  · simpa using hacf
  · simpa using hacl
  · rw [hddel2, hakept]
    simp
  · rfl

/-! ### Handler plumbing lemmas -/

theorem applyScalars_parts (inv : Invoice) (req : UpdateInvoiceRequest) :
    (applyScalars inv req).id = inv.id ∧
    (applyScalars inv req).userID = inv.userID ∧
    (applyScalars inv req).items = inv.items ∧
    (applyScalars inv req).adjustments = inv.adjustments ∧
    (applyScalars inv req).taxRate = inv.taxRate := by
  rw [applyScalars]
  cases req.customerName <;> cases req.customerEmail <;> simp

theorem applyTaxStatus_parts (inv : Invoice) (req : UpdateInvoiceRequest) :
    (applyTaxStatus inv req).id = inv.id ∧
    (applyTaxStatus inv req).userID = inv.userID ∧
    (applyTaxStatus inv req).items = inv.items ∧
    (applyTaxStatus inv req).adjustments = inv.adjustments := by
  rw [applyTaxStatus]
  cases req.taxRate <;> cases req.status <;> simp

theorem applyChildren_parts (inv : Invoice) (req : UpdateInvoiceRequest) :
    (applyChildren inv req).id = inv.id ∧
    (applyChildren inv req).userID = inv.userID ∧
    (applyChildren inv req).items =
      (match req.items with
        | some its => its.map toItemChild
        | none => inv.items) ∧
    (applyChildren inv req).adjustments =
      (match req.adjustments with
        | some adjs => adjs.map toAdjustmentChild
        | none => inv.adjustments) := by
  rw [applyChildren]
  cases req.items <;> cases req.adjustments <;> simp

theorem applyRecompute_parts (inv : Invoice) (req : UpdateInvoiceRequest) :
    (applyRecompute inv req).id = inv.id ∧
    (applyRecompute inv req).userID = inv.userID ∧
    (applyRecompute inv req).items = inv.items ∧
    (applyRecompute inv req).adjustments = inv.adjustments := by
  rw [applyRecompute]
  split_ifs <;> simp

theorem applyBankAccount_parts (inv : Invoice) (req : UpdateInvoiceRequest) :
    (applyBankAccount inv req).id = inv.id ∧
    (applyBankAccount inv req).userID = inv.userID ∧
    (applyBankAccount inv req).items = inv.items ∧
    (applyBankAccount inv req).adjustments = inv.adjustments := by
  rw [applyBankAccount]
  cases req.bankAccountID with
  | none => simp
  | some s =>
    dsimp only
    split_ifs with h
    · simp
    · cases parseUint32 s <;> simp

theorem patchAfterDueDate_parts (inv : Invoice) (req : UpdateInvoiceRequest) :
    (patchAfterDueDate inv req).id = inv.id ∧
    (patchAfterDueDate inv req).items =
      (match req.items with
        | some its => its.map toItemChild
        | none => inv.items) ∧
    (patchAfterDueDate inv req).adjustments =
      (match req.adjustments with
        | some adjs => adjs.map toAdjustmentChild
        | none => inv.adjustments) := by
  obtain ⟨hts1, _, hts3, hts4⟩ := applyTaxStatus_parts inv req
  obtain ⟨hch1, _, hch3, hch4⟩ := applyChildren_parts (applyTaxStatus inv req) req
  obtain ⟨hrc1, _, hrc3, hrc4⟩ :=
    applyRecompute_parts (applyChildren (applyTaxStatus inv req) req) req
  obtain ⟨hba1, _, hba3, hba4⟩ :=
    applyBankAccount_parts
      (applyRecompute (applyChildren (applyTaxStatus inv req) req) req) req
  rw [patchAfterDueDate]
  refine ⟨?_, ?_, ?_⟩
  · rw [hba1, hrc1, hch1, hts1]
  · rw [hba3, hrc3, hch3, hts3]
  · rw [hba4, hrc4, hch4, hts4]

theorem applyDueDate_none (inv : Invoice) : applyDueDate inv none = some inv := rfl

theorem findByID_spec (db : DB) (iid : ℕ) (inv : Invoice)
    (h : findByID db iid = some inv) :
    inv.id = iid ∧
    inv.items = db.items.filter (fun r => r.invoiceID = iid) ∧
    inv.adjustments = db.adjustments.filter (fun r => r.invoiceID = iid) := by
  rw [findByID] at h
  cases hfind : db.invoices.find? (fun r => r.id = iid) with
  | none => rw [hfind] at h; simp at h
  | some row =>
    rw [hfind] at h
    simp only [Option.some.injEq] at h
    have hrow : row.id = iid := by
      have := List.find?_some hfind
      simpa using this
    rw [← h]
    exact ⟨hrow, rfl, rfl⟩

theorem updateInvoiceHandler_unfold (oracle : ℕ → Bool) (db : DB) (caller : ℕ)
    (idStr : String) (req : UpdateInvoiceRequest) (iid : ℕ) (inv : Invoice)
    (hp : parseUint32 idStr = some iid) (hf : findByID db iid = some inv)
    (hown : inv.userID = caller) (hdd : req.dueDate = none) :
    updateInvoiceHandler oracle db caller idStr req =
      match updateTx oracle db (patchAfterDueDate (applyScalars inv req) req) with
      | none => (⟨500, false, "failed to update invoice"⟩, db)
      | some (db2, _) => (⟨200, true, ""⟩, db2) := by
  rw [updateInvoiceHandler, hp]
  dsimp only
  rw [hf]
  dsimp only
  rw [if_neg (by simp [hown]), hdd, applyDueDate_none]

theorem filter_not_mem_own_ids {α : Type} (table : List (Child α)) (invID : ℕ)
    (hnodup : (childIDs table).Nodup) :
    table.filter (fun r => decide (r.id ∉
      (table.filter fun e => decide (e.invoiceID = invID)).map (·.id))) =
    table.filter (fun r => decide (r.invoiceID ≠ invID)) := by
  apply List.filter_congr
  intro r hr
  rw [decide_eq_decide]
  constructor
  · intro h heq
    exact h (List.mem_map_of_mem _ (List.mem_filter.mpr ⟨hr, by simpa using heq⟩))
  · intro hne hmem
    obtain ⟨e, hef, hei⟩ := List.mem_map.mp hmem
    have he_tab : e ∈ table := (List.mem_filter.mp hef).1
    have he_inv : e.invoiceID = invID := by simpa using (List.mem_filter.mp hef).2
    have hinj : e = r := by
      have hn : (table.map (·.id)).Nodup := by simpa [childIDs] using hnodup
      exact List.inj_on_of_nodup_map hn he_tab hr hei
    exact hne (hinj ▸ he_inv)

/-- Reconciling an empty desired item list wipes exactly the existing
items of that invoice from storage (and emits them all as deletes). -/
theorem updateTx_items_wipe (db : DB) (inv : Invoice) (hempty : inv.items = [])
    (hnodup : (childIDs db.items).Nodup) :
    ∃ (db2 : DB) (trace : UpdateTrace),
      updateTx (fun _ => false) db inv = some (db2, trace) ∧
      db2.items = db.items.filter (fun r => decide (r.invoiceID ≠ inv.id)) ∧
      trace.itemDeletes = db.items.filter (fun r => r.invoiceID = inv.id) ∧
      trace.itemSaves = [] ∧ trace.itemCreates = [] := by
  have hi : upsertLoop (fun _ => false) inv.id
      (childIDs (db.items.filter fun r => r.invoiceID = inv.id)) inv.items
      ⟨[], db.items, db.nextItemID, 0, [], []⟩ =
      some ⟨[], db.items, db.nextItemID, 0, [], []⟩ := by
    rw [hempty]
    rfl
  obtain ⟨astate, ha, _, _, _, _, _, _⟩ :=
    upsertLoop_clean inv.id (childIDs (db.adjustments.filter fun r => r.invoiceID = inv.id))
      inv.adjustments ⟨[], db.adjustments, db.nextAdjustmentID, 0, [], []⟩
  obtain ⟨idel, hd, hddel, hdctr, hdtab⟩ :=
    deleteLoop_clean ([] : List ℕ) (db.items.filter fun r => r.invoiceID = inv.id)
      ⟨db.items, astate.ctr, []⟩
  obtain ⟨adel, hd2, _, _, _⟩ :=
    deleteLoop_clean astate.kept (db.adjustments.filter fun r => r.invoiceID = inv.id)
      ⟨astate.table, idel.ctr, []⟩
  have hall : (db.items.filter fun r => r.invoiceID = inv.id).filter
      (fun e => decide (e.id ∉ ([] : List ℕ))) =
      db.items.filter fun r => r.invoiceID = inv.id := by
    apply List.filter_eq_self.mpr
    intro a _
    simp
  refine ⟨⟨db.invoices.map
        (fun r => if r.id = inv.id then { inv with items := [], adjustments := [] } else r),
      idel.table, adel.table, db.nextInvoiceID, db.nextItemID, astate.nextID⟩,
    ⟨[], [], idel.deletes, astate.saves, astate.creates, adel.deletes⟩,
    ?_, ?_, ?_, rfl, rfl⟩
  · rw [updateTx, hi]
    dsimp only
    rw [ha]
    dsimp only
    rw [hd]
    dsimp only
    rw [hd2]
    simp
  · show idel.table = _
    rw [hdtab]
    dsimp only
    rw [hall]
    exact filter_not_mem_own_ids db.items inv.id hnodup
  · show idel.deletes = _
    rw [hddel]
    dsimp only
    rw [hall]
    simp

/-- Reconciling a desired item list equal to the preloaded existing items
leaves the item table exactly unchanged and emits no creates or deletes. -/
theorem updateTx_items_untouched (db : DB) (inv : Invoice)
    (hitems : inv.items = db.items.filter fun r => r.invoiceID = inv.id)
    (hnz : ∀ r ∈ db.items, r.id ≠ 0)
    (hnodup : (childIDs db.items).Nodup) :
    ∃ (db2 : DB) (trace : UpdateTrace),
      updateTx (fun _ => false) db inv = some (db2, trace) ∧
      db2.items = db.items ∧
      trace.itemCreates = [] ∧ trace.itemDeletes = [] := by
  have hn : (db.items.map (·.id)).Nodup := by simpa [childIDs] using hnodup
  obtain ⟨istate, hi, hitab, hikept, hicreates, hictr, hinid⟩ :=
    upsertLoop_preserved inv.id
      (childIDs (db.items.filter fun r => r.invoiceID = inv.id)) inv.items
      ⟨[], db.items, db.nextItemID, 0, [], []⟩
      (by
        intro d hd
        rw [hitems] at hd
        have hd_tab : d ∈ db.items := (List.mem_filter.mp hd).1
        have hd_inv : d.invoiceID = inv.id := by
          simpa using (List.mem_filter.mp hd).2
        refine ⟨⟨hnz d hd_tab, List.mem_map_of_mem _ hd⟩, hd_inv, ?_⟩
        intro r hr hre
        exact List.inj_on_of_nodup_map hn hr hd_tab hre
        )
  obtain ⟨astate, ha, _, _, _, _, _, _⟩ :=
    upsertLoop_clean inv.id (childIDs (db.adjustments.filter fun r => r.invoiceID = inv.id))
      inv.adjustments ⟨[], db.adjustments, db.nextAdjustmentID, istate.ctr, [], []⟩
  obtain ⟨idel, hd, hddel, hdctr, hdtab⟩ :=
    deleteLoop_clean istate.kept (db.items.filter fun r => r.invoiceID = inv.id)
      ⟨istate.table, astate.ctr, []⟩
  obtain ⟨adel, hd2, _, _, _⟩ :=
    deleteLoop_clean astate.kept (db.adjustments.filter fun r => r.invoiceID = inv.id)
      ⟨astate.table, idel.ctr, []⟩
  have hkept_all : (db.items.filter fun r => r.invoiceID = inv.id).filter
      (fun e => decide (e.id ∉ istate.kept)) = [] := by
    rw [List.filter_eq_nil_iff]
    intro e he
    rw [hikept, hitems]
    simp only [decide_eq_true_eq, not_not]
    simpa using List.mem_map_of_mem (·.id) he
  refine ⟨⟨db.invoices.map
        (fun r => if r.id = inv.id then { inv with items := [], adjustments := [] } else r),
      idel.table, adel.table, db.nextInvoiceID, istate.nextID, astate.nextID⟩,
    ⟨istate.saves, istate.creates, idel.deletes,
      astate.saves, astate.creates, adel.deletes⟩,
    ?_, ?_, ?_, ?_⟩
  · rw [updateTx, hi]
    dsimp only
    rw [ha]
    dsimp only
    rw [hd]
    dsimp only
    rw [hd2]
    simp
  · show idel.table = _
    rw [hdtab]
    dsimp only
    rw [hkept_all, hitab]
    simp
  · show istate.creates = _
    rw [hicreates]
  · show idel.deletes = _
    rw [hddel]
    dsimp only
    rw [hkept_all]
    rfl

/-- Reconciling an empty desired adjustment list wipes exactly the
existing adjustments of that invoice from storage. -/
theorem updateTx_adjustments_wipe (db : DB) (inv : Invoice)
    (hempty : inv.adjustments = [])
    (hnodup : (childIDs db.adjustments).Nodup) :
    ∃ (db2 : DB) (trace : UpdateTrace),
      updateTx (fun _ => false) db inv = some (db2, trace) ∧
      db2.adjustments = db.adjustments.filter (fun r => decide (r.invoiceID ≠ inv.id)) ∧
      trace.adjustmentDeletes = db.adjustments.filter (fun r => r.invoiceID = inv.id) ∧
      trace.adjustmentSaves = [] ∧ trace.adjustmentCreates = [] := by
  obtain ⟨istate, hi, hikept, _, _, _, hictr, _⟩ :=
    upsertLoop_clean inv.id (childIDs (db.items.filter fun r => r.invoiceID = inv.id))
      inv.items ⟨[], db.items, db.nextItemID, 0, [], []⟩
  have ha : upsertLoop (fun _ => false) inv.id
      (childIDs (db.adjustments.filter fun r => r.invoiceID = inv.id)) inv.adjustments
      ⟨[], db.adjustments, db.nextAdjustmentID, istate.ctr, [], []⟩ =
      some ⟨[], db.adjustments, db.nextAdjustmentID, istate.ctr, [], []⟩ := by
    rw [hempty]
    rfl
  obtain ⟨idel, hd, _, _, _⟩ :=
    deleteLoop_clean istate.kept (db.items.filter fun r => r.invoiceID = inv.id)
      ⟨istate.table, istate.ctr, []⟩
  obtain ⟨adel, hd2, hddel2, _, hdtab2⟩ :=
    deleteLoop_clean ([] : List ℕ) (db.adjustments.filter fun r => r.invoiceID = inv.id)
      ⟨db.adjustments, idel.ctr, []⟩
  have hall : (db.adjustments.filter fun r => r.invoiceID = inv.id).filter
      (fun e => decide (e.id ∉ ([] : List ℕ))) =
      db.adjustments.filter fun r => r.invoiceID = inv.id := by
    apply List.filter_eq_self.mpr
    intro a _
    simp
  refine ⟨⟨db.invoices.map
        (fun r => if r.id = inv.id then { inv with items := [], adjustments := [] } else r),
      idel.table, adel.table, db.nextInvoiceID, istate.nextID, db.nextAdjustmentID⟩,
    ⟨istate.saves, istate.creates, idel.deletes, [], [], adel.deletes⟩,
    ?_, ?_, ?_, rfl, rfl⟩
  · rw [updateTx, hi]
    dsimp only
    rw [ha]
    dsimp only
    rw [hd]
    dsimp only
    rw [hd2]
    simp
  · show adel.table = _
    rw [hdtab2]
    dsimp only
    rw [hall]
    exact filter_not_mem_own_ids db.adjustments inv.id hnodup
  · show adel.deletes = _
    rw [hddel2]
    dsimp only
    rw [hall]
    simp

/-- Reconciling a desired adjustment list equal to the preloaded existing
adjustments leaves the adjustment table exactly unchanged. -/
theorem updateTx_adjustments_untouched (db : DB) (inv : Invoice)
    (hadjs : inv.adjustments = db.adjustments.filter fun r => r.invoiceID = inv.id)
    (hnz : ∀ r ∈ db.adjustments, r.id ≠ 0)
    (hnodup : (childIDs db.adjustments).Nodup) :
    ∃ (db2 : DB) (trace : UpdateTrace),
      updateTx (fun _ => false) db inv = some (db2, trace) ∧
      db2.adjustments = db.adjustments ∧
      trace.adjustmentCreates = [] ∧ trace.adjustmentDeletes = [] := by
  have hn : (db.adjustments.map (·.id)).Nodup := by simpa [childIDs] using hnodup
  obtain ⟨istate, hi, _, _, _, _, _, _⟩ :=
    upsertLoop_clean inv.id (childIDs (db.items.filter fun r => r.invoiceID = inv.id))
      inv.items ⟨[], db.items, db.nextItemID, 0, [], []⟩
  obtain ⟨astate, ha, hatab, hakept, hacreates, hactr, hanid⟩ :=
    upsertLoop_preserved inv.id
      (childIDs (db.adjustments.filter fun r => r.invoiceID = inv.id)) inv.adjustments
      ⟨[], db.adjustments, db.nextAdjustmentID, istate.ctr, [], []⟩
      (by
        intro d hd
        rw [hadjs] at hd
        have hd_tab : d ∈ db.adjustments := (List.mem_filter.mp hd).1
        have hd_inv : d.invoiceID = inv.id := by
          simpa using (List.mem_filter.mp hd).2
        refine ⟨⟨hnz d hd_tab, List.mem_map_of_mem _ hd⟩, hd_inv, ?_⟩
        intro r hr hre
        exact List.inj_on_of_nodup_map hn hr hd_tab hre
        )
  obtain ⟨idel, hd, _, _, _⟩ :=
    deleteLoop_clean istate.kept (db.items.filter fun r => r.invoiceID = inv.id)
      ⟨istate.table, astate.ctr, []⟩
  obtain ⟨adel, hd2, hddel2, _, hdtab2⟩ :=
    deleteLoop_clean astate.kept (db.adjustments.filter fun r => r.invoiceID = inv.id)
      ⟨astate.table, idel.ctr, []⟩
  have hkept_all : (db.adjustments.filter fun r => r.invoiceID = inv.id).filter
      (fun e => decide (e.id ∉ astate.kept)) = [] := by
    rw [List.filter_eq_nil_iff]
    intro e he
    rw [hakept, hadjs]
    simp only [decide_eq_true_eq, not_not]
    simpa using List.mem_map_of_mem (·.id) he
  refine ⟨⟨db.invoices.map
        (fun r => if r.id = inv.id then { inv with items := [], adjustments := [] } else r),
      idel.table, adel.table, db.nextInvoiceID, istate.nextID, astate.nextID⟩,
    ⟨istate.saves, istate.creates, idel.deletes,
      astate.saves, astate.creates, adel.deletes⟩,
    ?_, ?_, ?_, ?_⟩
  · rw [updateTx, hi]
    dsimp only
    rw [ha]
    dsimp only
    rw [hd]
    dsimp only
    rw [hd2]
    simp
  · show adel.table = _
    rw [hdtab2]
    dsimp only
    rw [hkept_all, hatab]
    simp
  · show astate.creates = _
    rw [hacreates]
  · show adel.deletes = _
    rw [hddel2]
    dsimp only
    rw [hkept_all]
    rfl

/-! ### Claims -/

def demoItems : List InvoiceItem :=
  [⟨1, 1, ⟨"Design work", "", 2, 10000⟩⟩, ⟨2, 1, ⟨"Hosting", "", 1, 5000⟩⟩]

def demoAdjustments : List InvoiceAdjustment :=
  [⟨1, 1, ⟨"Rush fee", "addition", 500⟩⟩, ⟨2, 1, ⟨"Loyalty discount", "deduction", 200⟩⟩]

/-- C1: for every list of items and every list of adjustments whose kind
is addition or deduction, the derived fields satisfy: subtotal is the sum
of quantity times price over the items, adjustmentsTotal is the sum of
addition amounts minus the sum of deduction amounts, and total is exactly
subtotal + taxAmount + adjustmentsTotal; the subtotal is an `ℤ`-valued
fold with no floating-point step. -/
theorem C1_derived_fields (items : List InvoiceItem) (adjs : List InvoiceAdjustment)
    (taxRate : ℚ)
    (h : ∀ a ∈ adjs, a.fields.type = "addition" ∨ a.fields.type = "deduction") :
    (computeTotals items adjs taxRate).subtotal =
      (items.map fun item => item.fields.quantity * item.fields.price).sum ∧
    (computeTotals items adjs taxRate).adjustmentsTotal =
      ((adjs.filter fun a => a.fields.type == "addition").map
        fun a => a.fields.amount).sum -
      ((adjs.filter fun a => a.fields.type == "deduction").map
        fun a => a.fields.amount).sum ∧
    (computeTotals items adjs taxRate).total =
      (computeTotals items adjs taxRate).subtotal +
      (computeTotals items adjs taxRate).taxAmount +
      (computeTotals items adjs taxRate).adjustmentsTotal := by
  refine ⟨?_, ?_, rfl⟩
  · exact calcSubtotal_eq_sum items
  · exact calcAdjustmentsTotal_split adjs h

theorem C1_derived_fields_witness :
    (∀ a ∈ demoAdjustments, a.fields.type = "addition" ∨ a.fields.type = "deduction") ∧
    ((computeTotals demoItems demoAdjustments 10).subtotal =
      (demoItems.map fun item => item.fields.quantity * item.fields.price).sum ∧
    (computeTotals demoItems demoAdjustments 10).adjustmentsTotal =
      ((demoAdjustments.filter fun a => a.fields.type == "addition").map
        fun a => a.fields.amount).sum -
      ((demoAdjustments.filter fun a => a.fields.type == "deduction").map
        fun a => a.fields.amount).sum ∧
    (computeTotals demoItems demoAdjustments 10).total =
      (computeTotals demoItems demoAdjustments 10).subtotal +
      (computeTotals demoItems demoAdjustments 10).taxAmount +
      (computeTotals demoItems demoAdjustments 10).adjustmentsTotal) :=
  ⟨by decide, C1_derived_fields demoItems demoAdjustments 10 (by decide)⟩

/-- C2 counterexample: the tax amount is computed through binary64
arithmetic, so it does not always equal the exact
`floor(subtotal * taxRate / 100)`. At `subtotal = 450359962737049664`
minor units and `taxRate = 1`, the division by 100 rounds the quotient
`4503599627370496.64` up to the binary64 value `4503599627370497`, one
more than the exact floor. -/
theorem C2_tax_floor_counterexample :
    calcTaxAmount 450359962737049664 1 = 4503599627370497 ∧
    ⌊((450359962737049664 : ℤ) : ℚ) * 1 / 100⌋ = 4503599627370496 ∧
    calcTaxAmount 450359962737049664 1 ≠
      ⌊((450359962737049664 : ℤ) : ℚ) * 1 / 100⌋ := by
  have he : ((450359962737049664 : ℤ) : ℚ) * 1 / 100 =
      Rat.divInt 450359962737049664 100 := by
    rw [Rat.divInt_eq_div]
    norm_num
  refine ⟨by decide, ?_, ?_⟩
  · rw [he, ← qfloor_eq]
    decide
  · rw [he, ← qfloor_eq]
    decide

/-- C2 amended: the computed tax amount is the truncation of the binary64
computation `int(float64(subtotal) * taxRate / 100.0)`; it is monotone
non-decreasing in the subtotal for every fixed tax rate (with both
nonnegative), and it equals the exact `floor(subtotal * taxRate / 100)`
whenever the three binary64 roundings are exact on their operands. -/
theorem C2_tax_monotone :
    (∀ (r : ℚ) (s1 s2 : ℤ), 0 ≤ r → 0 ≤ s1 → s1 ≤ s2 →
      calcTaxAmount s1 r ≤ calcTaxAmount s2 r) ∧
    (∀ (s : ℤ) (r : ℚ), 0 ≤ s → 0 ≤ r →
      roundF ((s : ℚ)) = (s : ℚ) →
      roundF ((s : ℚ) * r) = (s : ℚ) * r →
      roundF ((s : ℚ) * r / 100) = (s : ℚ) * r / 100 →
      calcTaxAmount s r = ⌊(s : ℚ) * r / 100⌋) := by
  constructor
  · intro r s1 s2 hr hs1 h12
    rw [calcTaxAmount_def, calcTaxAmount_def]
    have hc1 : ((s1 : ℚ)) ≤ (s2 : ℚ) := by exact_mod_cast h12
    have hc0 : (0 : ℚ) ≤ (s1 : ℚ) := by exact_mod_cast hs1
    have m1 : roundF (s1 : ℚ) ≤ roundF (s2 : ℚ) := roundF_mono hc0 hc1
    have n1 : (0 : ℚ) ≤ roundF (s1 : ℚ) := roundF_nonneg hc0
    have m2 : roundF (s1 : ℚ) * r ≤ roundF (s2 : ℚ) * r :=
      mul_le_mul_of_nonneg_right m1 hr
    have n2 : (0 : ℚ) ≤ roundF (s1 : ℚ) * r := mul_nonneg n1 hr
    have m3 : roundF (roundF (s1 : ℚ) * r) ≤ roundF (roundF (s2 : ℚ) * r) :=
      roundF_mono n2 m2
    have n3 : (0 : ℚ) ≤ roundF (roundF (s1 : ℚ) * r) := roundF_nonneg n2
    have m4 : roundF (roundF (s1 : ℚ) * r) / 100 ≤ roundF (roundF (s2 : ℚ) * r) / 100 :=
      (div_le_div_right (by norm_num)).mpr m3
    have n4 : (0 : ℚ) ≤ roundF (roundF (s1 : ℚ) * r) / 100 :=
      div_nonneg n3 (by norm_num)
    have m5 := roundF_mono n4 m4
    have n5 := roundF_nonneg n4
    rw [trunc_of_nonneg n5, trunc_of_nonneg (le_trans n5 m5)]
    exact Int.floor_le_floor m5
  · intro s r hs hr h1 h2 h3
    rw [calcTaxAmount_def, h1, h2, h3]
    apply trunc_of_nonneg
    apply div_nonneg (mul_nonneg (by exact_mod_cast hs) hr)
    norm_num

theorem C2_tax_monotone_witness :
    ((0 : ℚ) ≤ 10 ∧ (0 : ℤ) ≤ 7000 ∧ (7000 : ℤ) ≤ 25000 ∧
      calcTaxAmount 7000 10 ≤ calcTaxAmount 25000 10) ∧
    (roundF ((25000 : ℤ) : ℚ) = ((25000 : ℤ) : ℚ) ∧
      roundF (((25000 : ℤ) : ℚ) * 10) = ((25000 : ℤ) : ℚ) * 10 ∧
      roundF (((25000 : ℤ) : ℚ) * 10 / 100) = ((25000 : ℤ) : ℚ) * 10 / 100 ∧
      calcTaxAmount 25000 10 = ⌊((25000 : ℤ) : ℚ) * 10 / 100⌋) := by
  have hmul : ((25000 : ℤ) : ℚ) * 10 = ((250000 : ℤ) : ℚ) := by norm_num
  have hdiv : ((25000 : ℤ) : ℚ) * 10 / 100 = ((2500 : ℤ) : ℚ) := by norm_num
  have hr1 : roundF ((25000 : ℤ) : ℚ) = ((25000 : ℤ) : ℚ) := by decide
  have hr2 : roundF (((25000 : ℤ) : ℚ) * 10) = ((25000 : ℤ) : ℚ) * 10 := by
    rw [hmul]
    decide
  have hr3 : roundF (((25000 : ℤ) : ℚ) * 10 / 100) = ((25000 : ℤ) : ℚ) * 10 / 100 := by
    rw [hdiv]
    decide
  refine ⟨⟨by norm_num, by norm_num, by norm_num,
    (C2_tax_monotone).1 10 7000 25000 (by norm_num) (by norm_num) (by norm_num)⟩,
    hr1, hr2, hr3, (C2_tax_monotone).2 25000 10 (by norm_num) (by norm_num) hr1 hr2 hr3⟩

/-- C8 counterexample: `rupiahToCents` is `int(rupiah * 100)` in binary64,
so it does not always equal the exact multiply-by-100-and-truncate. At the
representable price `45035996273705.1875` rupiah the product
`4503599627370518.75` rounds up to `4503599627370519`, one more than the
exact truncation. -/
theorem C8_conversion_counterexample :
    rupiahToCents (Rat.divInt 5764607523034264 128) = 4503599627370519 ∧
    ⌊(Rat.divInt 5764607523034264 128) * 100⌋ = 4503599627370518 ∧
    rupiahToCents (Rat.divInt 5764607523034264 128) ≠
      ⌊(Rat.divInt 5764607523034264 128) * 100⌋ := by
  have he : (Rat.divInt 5764607523034264 128) * 100 =
      qmul (Rat.divInt 5764607523034264 128) 100 := (qmul_eq _ _).symm
  refine ⟨by decide, ?_, ?_⟩
  · rw [he, ← qfloor_eq]
    decide
  · rw [he, ← qfloor_eq]
    decide

/-- C8 amended: each supplied major-currency amount is converted by one
binary64 multiplication by 100 followed by truncation toward zero; the
conversion is applied exactly once, at the boundary, before the totals
computation (the subtotal is the integer sum of quantity times converted
price), and it equals the exact multiply-and-truncate whenever the one
binary64 product is exact. -/
theorem C8_conversion_once :
    (∀ reqs : List CreateItemRequest,
      (convertCreateItems reqs).map (fun it => it.fields.price) =
        reqs.map (fun r => rupiahToCents r.price) ∧
      calcSubtotal (convertCreateItems reqs) =
        (reqs.map fun r => r.quantity * rupiahToCents r.price).sum) ∧
    (∀ reqs : List CreateAdjustmentRequest,
      (convertCreateAdjustments reqs).map (fun a => a.fields.amount) =
        reqs.map (fun r => rupiahToCents r.amount)) ∧
    (∀ x : ℚ, 0 ≤ x → roundF (x * 100) = x * 100 → rupiahToCents x = ⌊x * 100⌋) := by
  refine ⟨?_, ?_, ?_⟩
  · intro reqs
    constructor
    · rw [convertCreateItems, List.map_map]
      rfl
    · rw [calcSubtotal_eq_sum, convertCreateItems, List.map_map]
      rfl
  · intro reqs
    rw [convertCreateAdjustments, List.map_map]
    rfl
  · intro x hx hexact
    rw [rupiahToCents, qmul_eq, hexact]
    apply trunc_of_nonneg
    apply mul_nonneg hx
    norm_num

theorem C8_conversion_once_witness :
    ((convertCreateItems [⟨"Design", "", 2, 125⟩]).map (fun it => it.fields.price) =
      [⟨"Design", "", 2, (125 : ℚ)⟩].map
        (fun r => rupiahToCents (CreateItemRequest.price r)) ∧
     calcSubtotal (convertCreateItems [⟨"Design", "", 2, 125⟩]) = 25000) ∧
    ((0 : ℚ) ≤ Rat.divInt 25 2 ∧
      roundF ((Rat.divInt 25 2) * 100) = (Rat.divInt 25 2) * 100 ∧
      rupiahToCents (Rat.divInt 25 2) = ⌊(Rat.divInt 25 2) * 100⌋) := by
  have hmul : (Rat.divInt 25 2) * 100 = qmul (Rat.divInt 25 2) 100 := (qmul_eq _ _).symm
  have hr : roundF ((Rat.divInt 25 2) * 100) = (Rat.divInt 25 2) * 100 := by
    rw [hmul]
    decide
  refine ⟨⟨(C8_conversion_once.1 [⟨"Design", "", 2, 125⟩]).1, ?_⟩,
    ⟨by decide, hr, C8_conversion_once.2.2 (Rat.divInt 25 2) (by decide) hr⟩⟩
  rw [(C8_conversion_once.1 [⟨"Design", "", 2, 125⟩]).2]
  decide

/-- C4: if any step of a reconciliation fails, the whole reconciliation
rolls back: a failed transaction body leaves the observable state exactly
as it was, and the observable result of an update under any failure
oracle is either the untouched pre-state or the full result of the
failure-free reconciliation — a partial application is never observable. -/
theorem C4_rollback_atomicity (oracle : ℕ → Bool) (db : DB) (inv : Invoice) :
    (updateTx oracle db inv = none → updateInvoiceRepo oracle db inv = db) ∧
    (updateInvoiceRepo oracle db inv = db ∨
      updateInvoiceRepo oracle db inv = updateInvoiceRepo (fun _ => false) db inv) := by
  constructor
  · intro h
    rw [updateInvoiceRepo, h]
  · cases h : updateTx oracle db inv with
    | none =>
      left
      rw [updateInvoiceRepo, h]
    | some r =>
      obtain ⟨db2, tr⟩ := r
      right
      rw [updateInvoiceRepo, h, updateInvoiceRepo,
        updateTx_agree oracle db inv (db2, tr) h]

def c4db : DB :=
  ⟨[⟨1, 7, "INV-202501-001", "Acme", "acme@x.io", none, 0, "draft", 1000, 0, 0, 1000,
      none, [], [], 2025, 1⟩],
    [⟨5, 1, ⟨"Design", "", 1, 1000⟩⟩], [], 2, 6, 1⟩

def c4inv : Invoice :=
  ⟨1, 7, "INV-202501-001", "Acme", "acme@x.io", none, 0, "draft", 1000, 0, 0, 1000,
    none, [⟨5, 1, ⟨"Design", "", 1, 1100⟩⟩], [], 2025, 1⟩

theorem C4_rollback_atomicity_witness :
    updateTx (fun n => n == 0) c4db c4inv = none ∧
    updateInvoiceRepo (fun n => n == 0) c4db c4inv = c4db :=
  ⟨by decide, (C4_rollback_atomicity (fun n => n == 0) c4db c4inv).1 (by decide)⟩

/-- C9: every created invoice is numbered
`INV-{year}{month:02}-{sequence:03}` where the sequence is one more than
the number of invoices already stored for the same owner in the same
calendar year and month. -/
theorem C9_invoice_number (db : DB) (year month : ℕ) (inv : Invoice) :
    (createInvoiceRepo db year month inv).2.invoiceNumber =
      formatInvoiceNumber year month
        ((db.invoices.filter fun r =>
          r.userID = inv.userID ∧ r.createdYear = year ∧ r.createdMonth = month).length
          + 1) ∧
    (∀ seq : ℕ, formatInvoiceNumber year month seq =
      "INV-" ++ toString year ++ pad2 month ++ "-" ++ pad3 seq) ∧
    (1 ≤ month → month ≤ 12 → (pad2 month).length = 2) := by
  refine ⟨rfl, fun _ => rfl, ?_⟩
  intro h1 h2
  interval_cases month <;> decide

def c9db : DB :=
  ⟨[⟨1, 7, "INV-202503-001", "Acme", "acme@x.io", none, 0, "draft", 0, 0, 0, 0,
      none, [], [], 2025, 3⟩,
    ⟨2, 8, "INV-202503-001", "Globex", "g@x.io", none, 0, "draft", 0, 0, 0, 0,
      none, [], [], 2025, 3⟩,
    ⟨3, 7, "INV-202502-001", "Acme", "acme@x.io", none, 0, "draft", 0, 0, 0, 0,
      none, [], [], 2025, 2⟩],
    [], [], 4, 1, 1⟩

def c9inv : Invoice :=
  ⟨0, 7, "", "Acme", "acme@x.io", none, 0, "draft", 0, 0, 0, 0, none, [], [], 0, 0⟩

theorem C9_invoice_number_witness :
    ((createInvoiceRepo c9db 2025 3 c9inv).2.invoiceNumber =
      formatInvoiceNumber 2025 3
        ((c9db.invoices.filter fun r =>
          r.userID = c9inv.userID ∧ r.createdYear = 2025 ∧ r.createdMonth = 3).length
          + 1) ∧
    (∀ seq : ℕ, formatInvoiceNumber 2025 3 seq =
      "INV-" ++ toString 2025 ++ pad2 3 ++ "-" ++ pad3 seq) ∧
    (1 ≤ 3 → 3 ≤ 12 → (pad2 3).length = 2)) ∧
    (createInvoiceRepo c9db 2025 3 c9inv).2.invoiceNumber = "INV-202503-002" :=
  ⟨C9_invoice_number c9db 2025 3 c9inv, by decide⟩

/-- C10: on every single-invoice read, update, or delete, a stored
invoice owned by a different user yields the access-denied response and
leaves the storage state untouched, and the list endpoint only returns
invoices of the caller. -/
theorem C10_ownership :
    (∀ (db : DB) (caller iid : ℕ) (idStr : String) (inv : Invoice)
        (req : UpdateInvoiceRequest) (oracle : ℕ → Bool),
      parseUint32 idStr = some iid → findByID db iid = some inv →
      inv.userID ≠ caller →
      updateInvoiceHandler oracle db caller idStr req =
        (⟨403, false, "access denied"⟩, db)) ∧
    (∀ (db : DB) (caller iid : ℕ) (idStr : String) (inv : Invoice),
      parseUint32 idStr = some iid → findByID db iid = some inv →
      inv.userID ≠ caller →
      getInvoiceHandler db caller idStr = (⟨403, false, "access denied"⟩, db)) ∧
    (∀ (db : DB) (caller iid : ℕ) (idStr : String) (inv : Invoice),
      parseUint32 idStr = some iid → findByID db iid = some inv →
      inv.userID ≠ caller →
      deleteInvoiceHandler db caller idStr = (⟨403, false, "access denied"⟩, db)) ∧
    (∀ (db : DB) (caller : ℕ), ∀ i ∈ getInvoicesHandler db caller,
      i.userID = caller) := by
  refine ⟨?_, ?_, ?_, ?_⟩
  · intro db caller iid idStr inv req oracle hp hf hne
    rw [updateInvoiceHandler, hp]
    dsimp only
    rw [hf]
    dsimp only
    rw [if_pos hne]
  · intro db caller iid idStr inv hp hf hne
    rw [getInvoiceHandler, hp]
    dsimp only
    rw [hf]
    dsimp only
    rw [if_pos hne]
  · intro db caller iid idStr inv hp hf hne
    rw [deleteInvoiceHandler, hp]
    dsimp only
    rw [hf]
    dsimp only
    rw [if_pos hne]
  · intro db caller i hi
    simp only [getInvoicesHandler, findByUserID, List.mem_map] at hi
    obtain ⟨row, hrow, hE⟩ := hi
    have hu : row.userID = caller := by
      simpa using (List.mem_filter.mp hrow).2
    rw [← hE]
    simpa using hu

def c10db : DB :=
  ⟨[⟨1, 2, "INV-202501-001", "Acme", "acme@x.io", none, 0, "draft", 0, 0, 0, 0,
      none, [], [], 2025, 1⟩,
    ⟨2, 9, "INV-202501-001", "Globex", "g@x.io", none, 0, "sent", 0, 0, 0, 0,
      none, [], [], 2025, 1⟩],
    [], [], 3, 1, 1⟩

def c10inv : Invoice :=
  ⟨1, 2, "INV-202501-001", "Acme", "acme@x.io", none, 0, "draft", 0, 0, 0, 0,
    none, [], [], 2025, 1⟩

def c10req : UpdateInvoiceRequest := ⟨some "Evil", none, none, none, none, none, none, none⟩

theorem C10_ownership_witness :
    (parseUint32 "1" = some 1 ∧ findByID c10db 1 = some c10inv ∧
      c10inv.userID ≠ 9) ∧
    updateInvoiceHandler (fun _ => false) c10db 9 "1" c10req =
      (⟨403, false, "access denied"⟩, c10db) ∧
    getInvoiceHandler c10db 9 "1" = (⟨403, false, "access denied"⟩, c10db) ∧
    deleteInvoiceHandler c10db 9 "1" = (⟨403, false, "access denied"⟩, c10db) ∧
    (∀ i ∈ getInvoicesHandler c10db 9, i.userID = 9) :=
  ⟨⟨by decide, by decide, by decide⟩,
    C10_ownership.1 c10db 9 1 "1" c10inv c10req (fun _ => false)
      (by decide) (by decide) (by decide),
    C10_ownership.2.1 c10db 9 1 "1" c10inv (by decide) (by decide) (by decide),
    C10_ownership.2.2.1 c10db 9 1 "1" c10inv (by decide) (by decide) (by decide),
    C10_ownership.2.2.2 c10db 9⟩

def c6db : DB :=
  ⟨[⟨1, 7, "INV-202502-001", "Acme", "acme@x.io", none, 0, "draft", 0, 0, 0, 0,
      none, [], [], 2025, 2⟩],
    [], [], 2, 1, 1⟩

def c6req : UpdateInvoiceRequest :=
  ⟨none, none, none, none, none, none,
    some [⟨none, "Mystery fee", "discount", 5⟩], none⟩

/-- C6: the claim says an adjustment whose kind is neither "addition" nor
"deduction" is rejected as a validation error before any computation or
storage access. The update handler never invokes the validator, so the
unknown kind "discount" flows through: the request succeeds with 200, the
row is stored with kind "discount", and its amount is subtracted from the
totals as if it were a deduction. -/
theorem C6_unknown_kind_not_rejected :
    (updateInvoiceHandler (fun _ => false) c6db 7 "1" c6req).1.status = 200 ∧
    (updateInvoiceHandler (fun _ => false) c6db 7 "1" c6req).1.success = true ∧
    ((updateInvoiceHandler (fun _ => false) c6db 7 "1" c6req).2.invoices.map
      (fun r => r.adjustmentsTotal)) = [-500] ∧
    ((updateInvoiceHandler (fun _ => false) c6db 7 "1" c6req).2.invoices.map
      (fun r => r.total)) = [-500] ∧
    ((updateInvoiceHandler (fun _ => false) c6db 7 "1" c6req).2.adjustments.map
      (fun a => a.fields.type)) = ["discount"] := by
  decide

def c5db : DB :=
  ⟨[⟨1, 7, "INV-202501-001", "Acme", "acme@x.io", none, 0, "draft", 1000, 0, 0, 1000,
      none, [], [], 2025, 1⟩],
    [⟨5, 1, ⟨"Design", "", 1, 1000⟩⟩], [], 2, 6, 1⟩

def c5inv : Invoice :=
  ⟨1, 7, "INV-202501-001", "Acme", "acme@x.io", none, 0, "draft", 1000, 0, 0, 1000,
    none, [⟨42, 1, ⟨"Ghost", "", 1, 700⟩⟩, ⟨5, 1, ⟨"Design", "", 1, 1000⟩⟩], [], 2025, 1⟩

/-- C5 counterexample: a desired item carrying identity 42, which resolves
to no existing child of invoice 1 (the only existing item has identity 5),
does not make the reconciliation fail: the update succeeds and the entry
is silently created as a new row with the storage-assigned identity 6. -/
theorem C5_unresolved_identity_counterexample :
    updateTx (fun _ => false) c5db c5inv ≠ none ∧
    ((updateTx (fun _ => false) c5db c5inv).map
      (fun r => r.2.itemCreates.map (fun c => (c.id, c.fields)))) =
      some [(6, ⟨"Ghost", "", 1, 700⟩)] ∧
    ((updateTx (fun _ => false) c5db c5inv).map
      (fun r => r.2.itemDeletes)) = some [] := by
  decide

/-- C5 amended: a desired child whose identity does not resolve to an
existing child of the invoice is silently converted into a create — its
identity is cleared, storage assigns a fresh identity, and the
reconciliation succeeds; no error is raised. -/
theorem C5_unresolved_identity_creates (db : DB) (inv : Invoice) (d : InvoiceItem)
    (hd : d ∈ inv.items)
    (hnores : ¬(d.id ≠ 0 ∧
      d.id ∈ childIDs (db.items.filter fun r => r.invoiceID = inv.id))) :
    ∃ (db2 : DB) (trace : UpdateTrace),
      updateTx (fun _ => false) db inv = some (db2, trace) ∧
      d.fields ∈ trace.itemCreates.map (·.fields) := by
  obtain ⟨db2, trace, htx, _, hcf, _, _, _, _, _, _, _⟩ := updateTx_clean_char db inv
  refine ⟨db2, trace, htx, ?_⟩
  rw [hcf]
  apply List.mem_map_of_mem
  rw [newChildren]
  apply List.mem_filter.mpr
  refine ⟨hd, ?_⟩
  rw [decide_eq_false hnores]
  rfl

theorem C5_unresolved_identity_creates_witness :
    ((⟨42, 1, ⟨"Ghost", "", 1, 700⟩⟩ : InvoiceItem) ∈ c5inv.items ∧
      ¬((42 : ℕ) ≠ 0 ∧
        (42 : ℕ) ∈ childIDs (c5db.items.filter fun r => r.invoiceID = c5inv.id))) ∧
    ∃ (db2 : DB) (trace : UpdateTrace),
      updateTx (fun _ => false) c5db c5inv = some (db2, trace) ∧
      (⟨"Ghost", "", 1, 700⟩ : ItemFields) ∈ trace.itemCreates.map (·.fields) :=
  ⟨⟨by decide, by decide⟩,
    C5_unresolved_identity_creates c5db c5inv ⟨42, 1, ⟨"Ghost", "", 1, 700⟩⟩
      (by decide) (by decide)⟩

/-- C7: on an update request, a child collection that is present but
empty deletes every existing child of that invoice in that collection (and
touches no other row of the child table), while an absent child collection
leaves the child table exactly unchanged. Stated for both collections;
primary keys are assumed unique and nonzero, as the storage guarantees. -/
theorem C7_empty_vs_absent_collections :
    (∀ (db : DB) (caller iid : ℕ) (idStr : String) (inv : Invoice)
        (req : UpdateInvoiceRequest),
      parseUint32 idStr = some iid → findByID db iid = some inv →
      inv.userID = caller → req.dueDate = none →
      (childIDs db.items).Nodup → req.items = some [] →
      (updateInvoiceHandler (fun _ => false) db caller idStr req).1.status = 200 ∧
      (updateInvoiceHandler (fun _ => false) db caller idStr req).2.items =
        db.items.filter (fun r => decide (r.invoiceID ≠ iid))) ∧
    (∀ (db : DB) (caller iid : ℕ) (idStr : String) (inv : Invoice)
        (req : UpdateInvoiceRequest),
      parseUint32 idStr = some iid → findByID db iid = some inv →
      inv.userID = caller → req.dueDate = none →
      (∀ r ∈ db.items, r.id ≠ 0) → (childIDs db.items).Nodup → req.items = none →
      (updateInvoiceHandler (fun _ => false) db caller idStr req).1.status = 200 ∧
      (updateInvoiceHandler (fun _ => false) db caller idStr req).2.items =
        db.items) ∧
    (∀ (db : DB) (caller iid : ℕ) (idStr : String) (inv : Invoice)
        (req : UpdateInvoiceRequest),
      parseUint32 idStr = some iid → findByID db iid = some inv →
      inv.userID = caller → req.dueDate = none →
      (childIDs db.adjustments).Nodup → req.adjustments = some [] →
      (updateInvoiceHandler (fun _ => false) db caller idStr req).1.status = 200 ∧
      (updateInvoiceHandler (fun _ => false) db caller idStr req).2.adjustments =
        db.adjustments.filter (fun r => decide (r.invoiceID ≠ iid))) ∧
    (∀ (db : DB) (caller iid : ℕ) (idStr : String) (inv : Invoice)
        (req : UpdateInvoiceRequest),
      parseUint32 idStr = some iid → findByID db iid = some inv →
      inv.userID = caller → req.dueDate = none →
      (∀ r ∈ db.adjustments, r.id ≠ 0) → (childIDs db.adjustments).Nodup →
      req.adjustments = none →
      (updateInvoiceHandler (fun _ => false) db caller idStr req).1.status = 200 ∧
      (updateInvoiceHandler (fun _ => false) db caller idStr req).2.adjustments =
        db.adjustments) := by
  refine ⟨?_, ?_, ?_, ?_⟩
  · intro db caller iid idStr inv req hp hf hown hdd hnodup hie
    obtain ⟨hid, hfi, hfa⟩ := findByID_spec db iid inv hf
    obtain ⟨hsid, _, hsitems, _, _⟩ := applyScalars_parts inv req
    obtain ⟨h9id, h9items, h9adjs⟩ := patchAfterDueDate_parts (applyScalars inv req) req
    have h9id2 : (patchAfterDueDate (applyScalars inv req) req).id = iid := by
      rw [h9id, hsid, hid]
    have h9items2 : (patchAfterDueDate (applyScalars inv req) req).items = [] := by
      rw [h9items, hie]
      rfl
    obtain ⟨db2, trace, htx, hwipe, _, _, _⟩ :=
      updateTx_items_wipe db (patchAfterDueDate (applyScalars inv req) req)
        h9items2 hnodup
    rw [updateInvoiceHandler_unfold (fun _ => false) db caller idStr req iid inv
      hp hf hown hdd, htx]
    rw [h9id2] at hwipe
    exact ⟨rfl, hwipe⟩
  · intro db caller iid idStr inv req hp hf hown hdd hnz hnodup hin
    obtain ⟨hid, hfi, hfa⟩ := findByID_spec db iid inv hf
    obtain ⟨hsid, _, hsitems, _, _⟩ := applyScalars_parts inv req
    obtain ⟨h9id, h9items, h9adjs⟩ := patchAfterDueDate_parts (applyScalars inv req) req
    have h9id2 : (patchAfterDueDate (applyScalars inv req) req).id = iid := by
      rw [h9id, hsid, hid]
    have h9items2 : (patchAfterDueDate (applyScalars inv req) req).items =
        db.items.filter
          (fun r => r.invoiceID = (patchAfterDueDate (applyScalars inv req) req).id) := by
      rw [h9items, hin, hsitems, hfi, h9id2]
    obtain ⟨db2, trace, htx, huntouched, _, _⟩ :=
      updateTx_items_untouched db (patchAfterDueDate (applyScalars inv req) req)
        h9items2 hnz hnodup
    rw [updateInvoiceHandler_unfold (fun _ => false) db caller idStr req iid inv
      hp hf hown hdd, htx]
    exact ⟨rfl, huntouched⟩
  · intro db caller iid idStr inv req hp hf hown hdd hnodup hae
    obtain ⟨hid, hfi, hfa⟩ := findByID_spec db iid inv hf
    obtain ⟨hsid, _, _, hsadjs, _⟩ := applyScalars_parts inv req
    obtain ⟨h9id, h9items, h9adjs⟩ := patchAfterDueDate_parts (applyScalars inv req) req
    have h9id2 : (patchAfterDueDate (applyScalars inv req) req).id = iid := by
      rw [h9id, hsid, hid]
    have h9adjs2 : (patchAfterDueDate (applyScalars inv req) req).adjustments = [] := by
      rw [h9adjs, hae]
      rfl
    obtain ⟨db2, trace, htx, hwipe, _, _, _⟩ :=
      updateTx_adjustments_wipe db (patchAfterDueDate (applyScalars inv req) req)
        h9adjs2 hnodup
    rw [updateInvoiceHandler_unfold (fun _ => false) db caller idStr req iid inv
      hp hf hown hdd, htx]
    rw [h9id2] at hwipe
    exact ⟨rfl, hwipe⟩
  · intro db caller iid idStr inv req hp hf hown hdd hnz hnodup han
    obtain ⟨hid, hfi, hfa⟩ := findByID_spec db iid inv hf
    obtain ⟨hsid, _, _, hsadjs, _⟩ := applyScalars_parts inv req
    obtain ⟨h9id, h9items, h9adjs⟩ := patchAfterDueDate_parts (applyScalars inv req) req
    have h9id2 : (patchAfterDueDate (applyScalars inv req) req).id = iid := by
      rw [h9id, hsid, hid]
    have h9adjs2 : (patchAfterDueDate (applyScalars inv req) req).adjustments =
        db.adjustments.filter
          (fun r => r.invoiceID = (patchAfterDueDate (applyScalars inv req) req).id) := by
      rw [h9adjs, han, hsadjs, hfa, h9id2]
    obtain ⟨db2, trace, htx, huntouched, _, _⟩ :=
      updateTx_adjustments_untouched db (patchAfterDueDate (applyScalars inv req) req)
        h9adjs2 hnz hnodup
    rw [updateInvoiceHandler_unfold (fun _ => false) db caller idStr req iid inv
      hp hf hown hdd, htx]
    exact ⟨rfl, huntouched⟩

def c7db : DB :=
  ⟨[⟨1, 7, "INV-202501-001", "Acme", "acme@x.io", none, 0, "draft", 1000, 100, 0, 1100,
      none, [], [], 2025, 1⟩],
    [⟨5, 1, ⟨"Design", "", 1, 1000⟩⟩, ⟨9, 2, ⟨"Other", "", 1, 50⟩⟩],
    [⟨4, 1, ⟨"Fee", "addition", 100⟩⟩], 2, 10, 5⟩

def c7inv : Invoice :=
  ⟨1, 7, "INV-202501-001", "Acme", "acme@x.io", none, 0, "draft", 1000, 100, 0, 1100,
    none, [⟨5, 1, ⟨"Design", "", 1, 1000⟩⟩], [⟨4, 1, ⟨"Fee", "addition", 100⟩⟩], 2025, 1⟩

def c7reqItemsEmpty : UpdateInvoiceRequest :=
  ⟨none, none, none, none, none, some [], none, none⟩

def c7reqAdjEmpty : UpdateInvoiceRequest :=
  ⟨none, none, none, none, none, none, some [], none⟩

def c7reqAllAbsent : UpdateInvoiceRequest :=
  ⟨none, none, none, none, none, none, none, none⟩

theorem C7_empty_vs_absent_collections_witness :
    ((childIDs c7db.items).Nodup ∧ (∀ r ∈ c7db.items, r.id ≠ 0) ∧
      (childIDs c7db.adjustments).Nodup ∧ (∀ r ∈ c7db.adjustments, r.id ≠ 0)) ∧
    (updateInvoiceHandler (fun _ => false) c7db 7 "1" c7reqItemsEmpty).2.items =
      c7db.items.filter (fun r => decide (r.invoiceID ≠ 1)) ∧
    (updateInvoiceHandler (fun _ => false) c7db 7 "1" c7reqAllAbsent).2.items =
      c7db.items ∧
    (updateInvoiceHandler (fun _ => false) c7db 7 "1" c7reqAdjEmpty).2.adjustments =
      c7db.adjustments.filter (fun r => decide (r.invoiceID ≠ 1)) ∧
    (updateInvoiceHandler (fun _ => false) c7db 7 "1" c7reqAllAbsent).2.adjustments =
      c7db.adjustments :=
  ⟨⟨by decide, by decide, by decide, by decide⟩,
    (C7_empty_vs_absent_collections.1 c7db 7 1 "1" c7inv c7reqItemsEmpty
      (by decide) (by decide) (by decide) rfl (by decide) rfl).2,
    (C7_empty_vs_absent_collections.2.1 c7db 7 1 "1" c7inv c7reqAllAbsent
      (by decide) (by decide) (by decide) rfl (by decide) (by decide) rfl).2,
    (C7_empty_vs_absent_collections.2.2.1 c7db 7 1 "1" c7inv c7reqAdjEmpty
      (by decide) (by decide) (by decide) rfl (by decide) rfl).2,
    (C7_empty_vs_absent_collections.2.2.2 c7db 7 1 "1" c7inv c7reqAllAbsent
      (by decide) (by decide) (by decide) rfl (by decide) (by decide) rfl).2⟩

/-- C3: reconciliation emits an update for exactly the desired children
whose identity resolves among the existing rows (marked kept, full
overwrite with the invoice identity stamped on), a create with a
storage-assigned identity for exactly the rest, and a delete for exactly
the existing identities not marked kept; consequently a desired list equal
to the existing list yields zero creates and zero deletes, omitting one
existing identity yields exactly that one delete, and appending one
identity-free entry yields exactly one create. -/
theorem C3_reconcile_contract :
    (∀ (db : DB) (inv : Invoice),
      ∃ (db2 : DB) (trace : UpdateTrace),
        updateTx (fun _ => false) db inv = some (db2, trace) ∧
        trace.itemSaves =
          (keptChildren (childIDs (db.items.filter fun r => r.invoiceID = inv.id))
            inv.items).map (fun d => { d with invoiceID := inv.id }) ∧
        trace.itemCreates.map (·.fields) =
          (newChildren (childIDs (db.items.filter fun r => r.invoiceID = inv.id))
            inv.items).map (·.fields) ∧
        trace.itemCreates.length =
          (newChildren (childIDs (db.items.filter fun r => r.invoiceID = inv.id))
            inv.items).length ∧
        trace.itemDeletes =
          (db.items.filter fun r => r.invoiceID = inv.id).filter
            (fun e => decide (e.id ∉
              (keptChildren (childIDs (db.items.filter fun r => r.invoiceID = inv.id))
                inv.items).map (·.id)))) ∧
    (∀ (db : DB) (inv : Invoice),
      inv.items = db.items.filter (fun r => r.invoiceID = inv.id) →
      (∀ r ∈ db.items, r.id ≠ 0) →
      (childIDs db.items).Nodup →
      ∃ (db2 : DB) (trace : UpdateTrace),
        updateTx (fun _ => false) db inv = some (db2, trace) ∧
        trace.itemCreates = [] ∧ trace.itemDeletes = []) ∧
    (∀ (db : DB) (inv : Invoice) (x : InvoiceItem) (l1 l2 : List InvoiceItem),
      db.items.filter (fun r => r.invoiceID = inv.id) = l1 ++ x :: l2 →
      inv.items = l1 ++ l2 →
      (∀ r ∈ db.items, r.id ≠ 0) →
      (childIDs db.items).Nodup →
      ∃ (db2 : DB) (trace : UpdateTrace),
        updateTx (fun _ => false) db inv = some (db2, trace) ∧
        trace.itemDeletes = [x] ∧ trace.itemCreates = []) ∧
    (∀ (db : DB) (inv : Invoice) (n : InvoiceItem),
      inv.items = (db.items.filter (fun r => r.invoiceID = inv.id)) ++ [n] →
      n.id = 0 →
      (∀ r ∈ db.items, r.id ≠ 0) →
      ∃ (db2 : DB) (trace : UpdateTrace),
        updateTx (fun _ => false) db inv = some (db2, trace) ∧
        trace.itemCreates.length = 1 ∧
        trace.itemCreates.map (·.fields) = [n.fields] ∧
        trace.itemDeletes = []) := by
  refine ⟨?_, ?_, ?_, ?_⟩
  · intro db inv
    obtain ⟨db2, trace, htx, h1, h2, h3, h4, _, _, _, _, _⟩ := updateTx_clean_char db inv
    exact ⟨db2, trace, htx, h1, h2, h3, h4⟩
  · intro db inv hitems hnz hnodup
    obtain ⟨db2, trace, htx, _, hc, hd⟩ :=
      updateTx_items_untouched db inv hitems hnz hnodup
    exact ⟨db2, trace, htx, hc, hd⟩
  · intro db inv x l1 l2 hex hdes hnz hnodup
    obtain ⟨db2, trace, htx, _, hcf, hcl, hdel, _, _, _, _, _⟩ := updateTx_clean_char db inv
    have hsub : List.Sublist (l1 ++ x :: l2) db.items := by
      rw [← hex]
      exact List.filter_sublist _
    have hnd : ((l1 ++ x :: l2).map (·.id)).Nodup := by
      have hmap : List.Sublist ((l1 ++ x :: l2).map (·.id)) (db.items.map (·.id)) :=
        hsub.map _
      exact hmap.nodup (by simpa [childIDs] using hnodup)
    have hx_not : x.id ∉ (l1 ++ l2).map (·.id) := by
      rw [List.map_append, List.map_cons] at hnd
      have hc := List.nodup_cons.mp (List.nodup_middle.mp hnd)
      rw [List.map_append]
      exact hc.1
    have hmem_db : ∀ e ∈ l1 ++ x :: l2, e ∈ db.items := by
      intro e he
      have : e ∈ db.items.filter (fun r => decide (r.invoiceID = inv.id)) := by
        rw [hex]
        exact he
      exact (List.mem_filter.mp this).1
    have hkc : keptChildren (childIDs (db.items.filter fun r => r.invoiceID = inv.id))
        inv.items = l1 ++ l2 := by
      rw [hdes, keptChildren]
      apply List.filter_eq_self.mpr
      intro d hd
      have hd_ex : d ∈ l1 ++ x :: l2 := by
        rcases List.mem_append.mp hd with h | h
        · exact List.mem_append.mpr (Or.inl h)
        · exact List.mem_append.mpr (Or.inr (List.mem_cons_of_mem _ h))
      apply decide_eq_true
      refine ⟨hnz d (hmem_db d hd_ex), ?_⟩
      show d.id ∈ (db.items.filter fun r => r.invoiceID = inv.id).map (·.id)
      rw [hex]
      exact List.mem_map_of_mem _ hd_ex
    have hnc : newChildren (childIDs (db.items.filter fun r => r.invoiceID = inv.id))
        inv.items = [] := by
      rw [hdes, newChildren]
      rw [List.filter_eq_nil_iff]
      intro d hd
      have hd_ex : d ∈ l1 ++ x :: l2 := by
        rcases List.mem_append.mp hd with h | h
        · exact List.mem_append.mpr (Or.inl h)
        · exact List.mem_append.mpr (Or.inr (List.mem_cons_of_mem _ h))
      have hdec : decide (d.id ≠ 0 ∧
          d.id ∈ childIDs (db.items.filter fun r => r.invoiceID = inv.id)) = true := by
        apply decide_eq_true
        refine ⟨hnz d (hmem_db d hd_ex), ?_⟩
        show d.id ∈ (db.items.filter fun r => r.invoiceID = inv.id).map (·.id)
        rw [hex]
        exact List.mem_map_of_mem _ hd_ex
      simp [hdec]
    refine ⟨db2, trace, htx, ?_, ?_⟩
    · rw [hdel, hkc, hex, List.filter_append, List.filter_cons]
      have h1 : l1.filter (fun e => decide (e.id ∉ (l1 ++ l2).map (·.id))) = [] := by
        rw [List.filter_eq_nil_iff]
        intro e he
        simp only [decide_eq_true_eq, not_not]
        rw [List.map_append]
        exact List.mem_append.mpr (Or.inl (List.mem_map_of_mem _ he))
      have h2 : l2.filter (fun e => decide (e.id ∉ (l1 ++ l2).map (·.id))) = [] := by
        rw [List.filter_eq_nil_iff]
        intro e he
        simp only [decide_eq_true_eq, not_not]
        rw [List.map_append]
        exact List.mem_append.mpr (Or.inr (List.mem_map_of_mem _ he))
      rw [h1, h2, if_pos (by simpa using hx_not)]
      rfl
    · rw [← List.length_eq_zero]
      rw [hcl, hnc]
      rfl
  · intro db inv n hdes hn0 hnz
    obtain ⟨db2, trace, htx, _, hcf, hcl, hdel, _, _, _, _, _⟩ := updateTx_clean_char db inv
    have hpred : ∀ e ∈ db.items.filter (fun r => decide (r.invoiceID = inv.id)),
        decide (e.id ≠ 0 ∧
          e.id ∈ childIDs (db.items.filter fun r => r.invoiceID = inv.id)) = true := by
      intro e he
      apply decide_eq_true
      refine ⟨hnz e (List.mem_filter.mp he).1, ?_⟩
      exact List.mem_map_of_mem _ he
    have hkc : keptChildren (childIDs (db.items.filter fun r => r.invoiceID = inv.id))
        inv.items = db.items.filter (fun r => decide (r.invoiceID = inv.id)) := by
      rw [hdes, keptChildren, List.filter_append]
      have ha : (db.items.filter (fun r => decide (r.invoiceID = inv.id))).filter
          (fun d => decide (d.id ≠ 0 ∧
            d.id ∈ childIDs (db.items.filter fun r => r.invoiceID = inv.id))) =
          db.items.filter (fun r => decide (r.invoiceID = inv.id)) :=
        List.filter_eq_self.mpr hpred
      have hb : ([n] : List InvoiceItem).filter
          (fun d => decide (d.id ≠ 0 ∧
            d.id ∈ childIDs (db.items.filter fun r => r.invoiceID = inv.id))) = [] := by
        rw [List.filter_eq_nil_iff]
        intro d hd
        have : d = n := by simpa using hd
        subst this
        simp [hn0]
      rw [ha, hb, List.append_nil]
    have hnc : newChildren (childIDs (db.items.filter fun r => r.invoiceID = inv.id))
        inv.items = [n] := by
      rw [hdes, newChildren, List.filter_append]
      have ha : (db.items.filter (fun r => decide (r.invoiceID = inv.id))).filter
          (fun d => !decide (d.id ≠ 0 ∧
            d.id ∈ childIDs (db.items.filter fun r => r.invoiceID = inv.id))) = [] := by
        rw [List.filter_eq_nil_iff]
        intro d hd
        rw [hpred d hd]
        simp
      have hb : ([n] : List InvoiceItem).filter
          (fun d => !decide (d.id ≠ 0 ∧
            d.id ∈ childIDs (db.items.filter fun r => r.invoiceID = inv.id))) = [n] := by
        apply List.filter_eq_self.mpr
        intro d hd
        have : d = n := by simpa using hd
        subst this
        simp [hn0]
      rw [ha, hb, List.nil_append]
    refine ⟨db2, trace, htx, ?_, ?_, ?_⟩
    · rw [hcl, hnc]
      rfl
    · rw [hcf, hnc]
      rfl
    · rw [hdel, hkc]
      rw [List.filter_eq_nil_iff]
      intro e he
      simp only [decide_eq_true_eq, not_not]
      exact List.mem_map_of_mem _ he

def c3db : DB :=
  ⟨[⟨1, 7, "INV-202501-001", "Acme", "acme@x.io", none, 0, "draft", 300, 0, 0, 300,
      none, [], [], 2025, 1⟩],
    [⟨5, 1, ⟨"A", "", 1, 100⟩⟩, ⟨6, 1, ⟨"B", "", 1, 200⟩⟩], [], 2, 10, 1⟩

def c3invEq : Invoice :=
  ⟨1, 7, "INV-202501-001", "Acme", "acme@x.io", none, 0, "draft", 300, 0, 0, 300,
    none, [⟨5, 1, ⟨"A", "", 1, 100⟩⟩, ⟨6, 1, ⟨"B", "", 1, 200⟩⟩], [], 2025, 1⟩

def c3invOmit : Invoice :=
  ⟨1, 7, "INV-202501-001", "Acme", "acme@x.io", none, 0, "draft", 300, 0, 0, 300,
    none, [⟨6, 1, ⟨"B", "", 1, 200⟩⟩], [], 2025, 1⟩

def c3invAdd : Invoice :=
  ⟨1, 7, "INV-202501-001", "Acme", "acme@x.io", none, 0, "draft", 300, 0, 0, 300,
    none, [⟨5, 1, ⟨"A", "", 1, 100⟩⟩, ⟨6, 1, ⟨"B", "", 1, 200⟩⟩,
      ⟨0, 0, ⟨"New", "", 2, 300⟩⟩], [], 2025, 1⟩

theorem C3_reconcile_contract_witness :
    (∃ (db2 : DB) (trace : UpdateTrace),
      updateTx (fun _ => false) c3db c3invEq = some (db2, trace) ∧
      trace.itemCreates = [] ∧ trace.itemDeletes = []) ∧
    (∃ (db2 : DB) (trace : UpdateTrace),
      updateTx (fun _ => false) c3db c3invOmit = some (db2, trace) ∧
      trace.itemDeletes = [⟨5, 1, ⟨"A", "", 1, 100⟩⟩] ∧ trace.itemCreates = []) ∧
    (∃ (db2 : DB) (trace : UpdateTrace),
      updateTx (fun _ => false) c3db c3invAdd = some (db2, trace) ∧
      trace.itemCreates.length = 1 ∧
      trace.itemCreates.map (·.fields) =
        [(⟨0, 0, ⟨"New", "", 2, 300⟩⟩ : InvoiceItem).fields] ∧
      trace.itemDeletes = []) :=
  ⟨C3_reconcile_contract.2.1 c3db c3invEq (by decide) (by decide) (by decide),
    C3_reconcile_contract.2.2.1 c3db c3invOmit ⟨5, 1, ⟨"A", "", 1, 100⟩⟩ []
      [⟨6, 1, ⟨"B", "", 1, 200⟩⟩] (by decide) (by decide) (by decide) (by decide),
    C3_reconcile_contract.2.2.2 c3db c3invAdd ⟨0, 0, ⟨"New", "", 2, 300⟩⟩
      (by decide) (by decide) (by decide)⟩

end Bikinota
